import Mathlib

/-!
# Verification of the BHE data-masking and group-outlier engine

Shallow embedding of the masking / outlier code of this repository
(`helpers/load.py`, `helpers/load2.py`, `helpers/analyse.py`) and proofs of the
specification claims about it.

Modelling conventions:
* a float series with NaNs is a `List (Option ℚ)`; `none` models NaN
  (NaN compares false against every threshold, which the `Option` match encodes);
* boolean numpy arrays are `List Bool`; `arr[a:b] = True` is `sliceSet`;
* `np.where(cond)[0]` is `List.filter` over `List.range` (indices in increasing
  order, exactly the sorted index list numpy returns);
* Python numbers where the int/float distinction matters (`load2.py`) are a
  tagged type `PyNum`; slicing with a float index raises `TypeError`, modelled
  with `Except String`.
-/

namespace Load

/-- `data['Probe_xx_V_dot'].values < 0.5` — NaN (`none`) compares `False`,
exactly as in numpy. -/
def lowflow (V : List (Option ℚ)) : List Bool :=
  V.map fun v =>
    match v with
    | some q => decide (q < 0.5)
    | none => false

/-- `np.isnan` of the flow series. -/
def isnanL (V : List (Option ℚ)) : List Bool := V.map Option.isNone

/-- `np.concatenate(([0], np.isnan(...), [0]))` — the indicator series
bracketed by an implicit non-missing value at both ends. -/
def padded (bs : List Bool) : List Bool := false :: (bs ++ [false])

/-- `nan_diff = np.diff(padded)` with the 0/1 indicator read as integers. -/
def nanDiff (bs : List Bool) : List ℤ :=
  (List.range (bs.length + 1)).map fun i =>
    (if (padded bs).getD (i + 1) false then (1 : ℤ) else 0) -
    (if (padded bs).getD i false then (1 : ℤ) else 0)

/-- The diff is `1` at `i`: a 0→1 transition of the padded indicator. -/
def riseAt (bs : List Bool) (i : ℕ) : Bool :=
  (padded bs).getD (i + 1) false && !((padded bs).getD i false)

/-- The diff is `-1` at `i`: a 1→0 transition of the padded indicator. -/
def fallAt (bs : List Bool) (i : ℕ) : Bool :=
  (padded bs).getD i false && !((padded bs).getD (i + 1) false)

/-- `nan_starts = np.where(nan_diff == 1)[0]`. -/
def nanStarts (bs : List Bool) : List ℕ :=
  (List.range (bs.length + 1)).filter fun i => riseAt bs i

/-- `nan_ends = np.where(nan_diff == -1)[0]`. -/
def nanEnds (bs : List Bool) : List ℕ :=
  (List.range (bs.length + 1)).filter fun i => fallAt bs i

/-- `zip(nan_starts, nan_ends)`. -/
def nanRuns (bs : List Bool) : List (ℕ × ℕ) := (nanStarts bs).zip (nanEnds bs)

/-- `mask[a:b] = True` on a boolean numpy array: positions `a ≤ i < b` become
`True`, everything else is unchanged; out-of-range parts of the slice are
silently clipped, as in Python. -/
def sliceSet : List Bool → ℕ → ℕ → List Bool
  | [], _, _ => []
  | x :: xs, a, b => (x || (decide (a = 0) && decide (0 < b))) :: sliceSet xs (a - 1) (b - 1)

/-- The `mask_nan_volflow` loop of `create_BHE_data_mask` (`load.py`): for every
detected run with `end - start > min_gap`, set `[start, min(end + nsteps, N))`. -/
def gapMask (V : List (Option ℚ)) (min_gap nsteps : ℕ) : List Bool :=
  (nanRuns (isnanL V)).foldl
    (fun m se =>
      if min_gap < se.2 - se.1 then sliceSet m se.1 (min (se.2 + nsteps) V.length) else m)
    (List.replicate V.length false)

/-- `combined_mask = mask_nan_volflow | mask_volflow`. -/
def combinedMask (V : List (Option ℚ)) (min_gap nsteps : ℕ) : List Bool :=
  List.zipWith (· || ·) (gapMask V min_gap nsteps) (lowflow V)

/-- `indices = np.where(combined_mask)[0]`. -/
def triggerIdx (V : List (Option ℚ)) (min_gap nsteps : ℕ) : List ℕ :=
  (List.range (combinedMask V min_gap nsteps).length).filter
    fun i => (combinedMask V min_gap nsteps).getD i false

/-- The final loop of `create_BHE_data_mask`: start from `np.zeros_like(T_in)`
and set `mask[idx : idx + nsteps + 1] = True` for every trigger index. -/
def finalMask (nmask : ℕ) (V : List (Option ℚ)) (min_gap nsteps : ℕ) : List Bool :=
  (triggerIdx V min_gap nsteps).foldl
    (fun m idx => sliceSet m idx (idx + nsteps + 1))
    (List.replicate nmask false)

/-- `int(-(-time_to_mask // timestep))`: Python float floor-division,
double-negated, converted to an integer.  On positive inputs this is the
ceiling of the quotient. -/
def nstepsPy (t s : ℚ) : ℕ := (-(Int.floor ((-t) / s))).toNat

/-- The `MASKING_TIMES` dictionary of `load.py` / `load2.py` (device id →
transit time in seconds). -/
def MASKING_TIMES : List (String × ℚ) :=
  [("01", 625.36), ("02", 593.24), ("03", 585.96), ("04", 626.64),
   ("05", 668.18), ("06", 706.72), ("07", 745.26), ("08", 567.54),
   ("09", 593.24), ("10", 640.34), ("11", 672.46), ("12", 638.2),
   ("13", 807.36), ("14", 723.85), ("15", 683.17), ("16", 642.48),
   ("17", 601.8), ("18", 563.26), ("19", 563.26), ("20", 603.94),
   ("21", 642.48), ("22", 685.31), ("23", 693.87), ("24", 721.71),
   ("25", 651.05), ("26", 616.79), ("27", 651.05), ("28", 597.52),
   ("29", 631.78), ("30", 578.25), ("31", 618.93), ("32", 563.26),
   ("33", 573.97), ("34", 614.65), ("35", 629.64), ("36", 655.33),
   ("37", 614.65), ("38", 648.91), ("39", 708.86), ("40", 747.4)]

/-! ### Gap-run detection: equivalence of the diff/where/zip pipeline with
maximal-run semantics -/

/-- Value of the indicator at `i`, with the implicit trailing non-missing
sentinel (`False` beyond the end). -/
def getS (bs : List Bool) (i : ℕ) : Bool := bs.getD i false

/-- Value of the indicator just before `i`, with an explicit value `prev` in
front of position `0` (the leading sentinel generalised). -/
def prevS (prev : Bool) (bs : List Bool) (i : ℕ) : Bool :=
  if i = 0 then prev else bs.getD (i - 1) false

/-- `nanStarts`, generalised over the value sitting in front of the series. -/
def startsP (prev : Bool) (bs : List Bool) : List ℕ :=
  (List.range (bs.length + 1)).filter fun i => getS bs i && !(prevS prev bs i)

/-- `nanEnds`, generalised over the value sitting in front of the series. -/
def endsP (prev : Bool) (bs : List Bool) : List ℕ :=
  (List.range (bs.length + 1)).filter fun i => prevS prev bs i && !(getS bs i)

/-- Length of the maximal `true`-run at the head of the list. -/
def leadLen : List Bool → ℕ
  | [] => 0
  | b :: bs => if b then leadLen bs + 1 else 0

/-- Shift every interval of a run list by `n`. -/
def shiftR (n : ℕ) (l : List (ℕ × ℕ)) : List (ℕ × ℕ) :=
  l.map (Prod.map (· + n) (· + n))

/-- Reference recursive computation of run intervals.  The flag records
whether a run was already open in front of the list (`true`: we are inside a
run whose start lies before the current head; its interval is not listed,
only the runs that start inside the list are). -/
def runsB : Bool → List Bool → List (ℕ × ℕ)
  | _, [] => []
  | false, b :: bs =>
      if b then (0, leadLen bs + 1) :: shiftR 1 (runsB true bs) else shiftR 1 (runsB false bs)
  | true, b :: bs =>
      if b then shiftR 1 (runsB true bs) else shiftR 1 (runsB false bs)

/-- `(s, e)` is a maximal run of `true`s, with the value `prev` sitting in
front of position `0`. -/
def MaxRunP (prev : Bool) (bs : List Bool) (s e : ℕ) : Prop :=
  s < e ∧ e ≤ bs.length ∧ (∀ j, s ≤ j → j < e → bs.getD j false = true) ∧
  (if s = 0 then prev = false else bs.getD (s - 1) false = false) ∧
  (e = bs.length ∨ bs.getD e false = false)

instance (prev : Bool) (bs : List Bool) (s e : ℕ) : Decidable (MaxRunP prev bs s e) :=
  decidable_of_iff
    (s < e ∧ e ≤ bs.length ∧ (∀ j, j < e → s ≤ j → bs.getD j false = true) ∧
      (if s = 0 then prev = false else bs.getD (s - 1) false = false) ∧
      (e = bs.length ∨ bs.getD e false = false))
    (by
      unfold MaxRunP
      constructor
      · rintro ⟨a, b, c, d, f⟩
        exact ⟨a, b, fun j h1 h2 => c j h2 h1, d, f⟩
      · rintro ⟨a, b, c, d, f⟩
        exact ⟨a, b, fun j h1 h2 => c j h2 h1, d, f⟩)

/-- `(s, e)` is a maximal run of missing values: the indicator is `true`
throughout `[s, e)`, and the run can be extended in neither direction. -/
def MaxRun (bs : List Bool) (s e : ℕ) : Prop := MaxRunP false bs s e

instance (bs : List Bool) (s e : ℕ) : Decidable (MaxRun bs s e) :=
  inferInstanceAs (Decidable (MaxRunP false bs s e))

/-- `create_BHE_data_mask` of `load.py`, for a device given as a canonical
two-digit string.  `MASKING_TIMES.get(BHE)` has no default there, so an
unknown device yields `None` and the arithmetic on the next line raises
`TypeError`; a known device produces the mask built from the low-flow test,
the gap mask and the per-trigger-index look-ahead loop. -/
def create_BHE_data_mask (T_in V_dot : List (Option ℚ)) (BHE : String)
    (timestep : ℚ) : Except String (List Bool) :=
  match MASKING_TIMES.lookup BHE with
  | none => .error "TypeError"
  | some time_to_mask =>
      .ok ((finalMask T_in.length V_dot 20 (nstepsPy time_to_mask timestep)).take T_in.length)

end Load

/-! ### Python numbers with the int/float distinction (`load2.py`)

`load2.py` computes `nsteps = -(-time_to_mask // timestep)` without the `int()`
conversion that `load.py` applies, so the Python type of `nsteps` matters: a
float slice bound raises `TypeError`.  `PyNum` tags each value with its Python
type; arithmetic follows Python's promotion rules (`//` on a float operand
gives a float whose value is the exact floor, `int // int` floors to an int),
and `min` compares by value, returning its first argument on a tie.  Slice
bounds here are only ever non-negative, so `sliceIndex` does not model
Python's negative-index wrap-around. -/

inductive PyNum where
  | pint : ℤ → PyNum
  | pfloat : ℚ → PyNum
deriving DecidableEq, Repr

namespace PyNum

def val : PyNum → ℚ
  | pint z => (z : ℚ)
  | pfloat q => q

def neg : PyNum → PyNum
  | pint z => pint (-z)
  | pfloat q => pfloat (-q)

/-- Python `//`: floor division, float if either operand is a float. -/
def floordiv : PyNum → PyNum → PyNum
  | pint a, pint b => pint (Int.fdiv a b)
  | a, b => pfloat ((Int.floor (a.val / b.val) : ℤ) : ℚ)

/-- Python `+`: int only when both operands are ints. -/
def add : PyNum → PyNum → PyNum
  | pint a, pint b => pint (a + b)
  | a, b => pfloat (a.val + b.val)

/-- Python `min` on two numbers: compares by value, first argument on ties. -/
def pymin (a b : PyNum) : PyNum := if b.val < a.val then b else a

/-- Using the number as a slice bound: an int is accepted, a float raises
`TypeError`. -/
def sliceIndex : PyNum → Except String ℕ
  | pint z => .ok z.toNat
  | pfloat _ => .error "TypeError"

def isFloat : PyNum → Bool
  | pint _ => false
  | pfloat _ => true

end PyNum

namespace Load2

/-- `create_nan_mask` of `load2.py`: the same run detection as `load.py`
(the `nan_diff`/`np.where`/`zip` lines are textually identical), but `nsteps`
arrives as a Python number whose type is not guaranteed to be int.
`min(end + nsteps, len(series))` picks by value (first argument on a tie), and
slicing with the result raises `TypeError` if it is a float. -/
def create_nan_mask (series : List (Option ℚ)) (min_gap_size : ℕ) (nsteps : PyNum) :
    Except String (List Bool) :=
  (Load.nanRuns (Load.isnanL series)).foldlM
    (fun m se =>
      if min_gap_size < se.2 - se.1 then do
        let ub ← (PyNum.pymin (PyNum.add (.pint (se.2 : ℤ)) nsteps) (.pint (series.length : ℤ))).sliceIndex
        pure (Load.sliceSet m se.1 ub)
      else pure m)
    (List.replicate series.length false)

/-- `nsteps = -(-time_to_mask // timestep)` of `load2.py` — no `int()`
conversion. -/
def nstepsPy2 (time_to_mask : PyNum) (timestep : ℤ) : PyNum :=
  PyNum.neg (PyNum.floordiv (PyNum.neg time_to_mask) (.pint timestep))

/-- `create_BHE_data_mask` of `load2.py`: `MASKING_TIMES.get(BHE, 0)` defaults
to the int `0` for an unknown device, while a known device yields its float
transit time. -/
def create_BHE_data_mask (T_in V_dot : List (Option ℚ)) (BHE : String)
    (timestep : ℤ) : Except String (List Bool) := do
  let time_to_mask : PyNum :=
    match Load.MASKING_TIMES.lookup BHE with
    | some t => .pfloat t
    | none => .pint 0
  let nsteps := nstepsPy2 time_to_mask timestep
  let mask_nan_volflow ← create_nan_mask V_dot 20 nsteps
  let combined := List.zipWith (· || ·) mask_nan_volflow (Load.lowflow V_dot)
  let indices := (List.range combined.length).filter fun i => combined.getD i false
  let mask ← indices.foldlM
    (fun m (idx : ℕ) => do
      let ub ← (PyNum.add (PyNum.add (.pint (idx : ℤ)) nsteps) (.pint 1)).sliceIndex
      pure (Load.sliceSet m idx ub))
    (List.replicate T_in.length false)
  pure (mask.take T_in.length)

end Load2

/-! ### `analyse.py`: group median outlier detection -/

namespace Analyse

/-- The time-aligned data table: a fixed number of rows and, for every column
name, a value per row (`none` models NaN; DataFrame columns all share the
row index, hence the single `nrows`). -/
structure DFrame where
  nrows : ℕ
  col : String → ℕ → Option ℚ

/-- `np.median` of a nonempty list: sort ascending (insertion sort — Mathlib
proves `List.sorted_insertionSort` and `List.perm_insertionSort`, so this is
the sort `np.median` performs), then take the middle element (odd length) or
the mean of the two middle elements (even length). -/
def npmedian (l : List ℚ) : ℚ :=
  let s := l.insertionSort (· ≤ ·)
  if s.length % 2 = 1 then s.getD (s.length / 2) 0
  else (s.getD (s.length / 2 - 1) 0 + s.getD (s.length / 2) 0) / 2

/-- One timestamp of `np.nanmedian(data[cols].values.T, axis=0)`: the median
over the members with a non-missing value there; `none` (NaN, with only a
runtime warning in numpy) when no member has a value — in particular for an
empty column list. -/
def nanmedianAt (df : DFrame) (cols : List String) (t : ℕ) : Option ℚ :=
  let vals := cols.filterMap fun c => df.col c t
  if vals.isEmpty then none else some (npmedian vals)

/-- The whole per-timestamp median series of a member group. -/
def nanmedianSeries (df : DFrame) (cols : List String) : List (Option ℚ) :=
  (List.range df.nrows).map (nanmedianAt df cols)

/-- `mask = np.isnan(data[f]) + np.isnan(med)` at one timestamp. -/
def pairMask (df : DFrame) (f : String) (med : List (Option ℚ)) (t : ℕ) : Bool :=
  (df.col f t).isNone || (med.getD t none).isNone

/-- The timestamps selected by `~mask`. -/
def validIdx (df : DFrame) (f : String) (med : List (Option ℚ)) : List ℕ :=
  (List.range df.nrows).filter fun t => !(pairMask df f med t)

/-- One member's `mean_misfit`:
`len(np.unique(mask)) == 1 and np.unique(mask)[0]` (the mask is nonempty and
constantly `True`) gives `np.nan`, modelled `none`; otherwise
`mae(med[~mask], data[f][~mask])` — which raises `ValueError` in sklearn when
the selected subset is empty (possible only for zero rows). -/
def member_misfit (df : DFrame) (f : String) (med : List (Option ℚ)) :
    Except String (Option ℚ) :=
  if 0 < df.nrows ∧ ∀ t, t < df.nrows → pairMask df f med t = true then
    .ok none
  else
    let valid := validIdx df f med
    if valid.isEmpty then .error "ValueError"
    else .ok (some ((valid.map fun t =>
      |((med.getD t none).getD 0) - ((df.col f t).getD 0)|).sum / (valid.length : ℚ)))

/-- `mean_misfit_dict.update({f: v})`: replace the value if the key exists,
append otherwise. -/
def dictUpdate (d : List (String × ℚ)) (k : String) (v : ℚ) : List (String × ℚ) :=
  if d.any (fun p => p.1 = k) then d.map (fun p => if p.1 = k then (k, v) else p)
  else d ++ [(k, v)]

/-- One of the three per-group loops: compute each member's misfit and record
it iff `np.abs(mean_misfit) > threshold` (false for `np.nan`, hence the
`none` branch records nothing). -/
def flag_group (df : DFrame) (med : List (Option ℚ)) (threshold : ℚ)
    (cols : List String) (acc : List (String × ℚ)) :
    Except String (List (String × ℚ)) :=
  cols.foldlM
    (fun d f => do
      let mm ← member_misfit df f med
      match mm with
      | some v => pure (if threshold < |v| then dictUpdate d f v else d)
      | none => pure d)
    acc

/-- `f'{x:02}'`. -/
def pad2 (x : ℕ) : String := if x < 10 then "0" ++ toString x else toString x

/-- `f'{before}{x:02}{after}'`. -/
def fmtId (before : String) (x : ℕ) (after : String) : String :=
  before ++ pad2 x ++ after

def west_ids : List ℕ := [1, 2, 3, 4, 5, 6, 7, 8, 9, 10, 11, 12]
def south_ids : List ℕ := [13, 14, 15, 16, 17, 18, 19, 20, 21, 22, 24, 25]
def east_ids : List ℕ := [23, 26, 27, 28, 29, 30, 31, 32, 33, 34, 35, 36, 37, 38, 39, 40]

/-- `generate_ID_strings_per_shaft`. -/
def generate_ID_strings_per_shaft (before after : String) :
    List String × List String × List String :=
  (west_ids.map fun x => fmtId before x after,
   south_ids.map fun x => fmtId before x after,
   east_ids.map fun x => fmtId before x after)

/-- The body of the `for masked in masked_BHEs` loop of `get_ID_strings`:
`list.remove` (erase the first occurrence) from the first of the three lists
that contains the identifier, a silent no-op when none does. -/
def removeMasked (wse : List String × List String × List String) (m : String) :
    List String × List String × List String :=
  if m ∈ wse.1 then (wse.1.erase m, wse.2.1, wse.2.2)
  else if m ∈ wse.2.1 then (wse.1, wse.2.1.erase m, wse.2.2)
  else if m ∈ wse.2.2 then (wse.1, wse.2.1, wse.2.2.erase m)
  else wse

/-- `get_ID_strings`. -/
def get_ID_strings (after : String) (masked_BHEs : Option (List String)) :
    List String × List String × List String :=
  let wse := generate_ID_strings_per_shaft "Probe_" after
  match masked_BHEs with
  | none => wse
  | some ms => ms.foldl removeMasked wse

/-- `get_vault_outliers_median_filter`: resolve the three groups (honouring
the exclusion list), compute each group's nanmedian series, then run the three
flagging loops in source order (west, east, south) over one shared dict. -/
def get_vault_outliers_median_filter (df : DFrame) (after : String)
    (threshold : ℚ) (return_medians : Bool) (masked_BHEs : Option (List String)) :
    Except String ((List (String × ℚ)) ×
      Option (List (Option ℚ) × List (Option ℚ) × List (Option ℚ))) := do
  let wse := get_ID_strings after masked_BHEs
  let med_west := nanmedianSeries df wse.1
  let med_south := nanmedianSeries df wse.2.1
  let med_east := nanmedianSeries df wse.2.2
  let d1 ← flag_group df med_west threshold wse.1 []
  let d2 ← flag_group df med_east threshold wse.2.2 d1
  let d3 ← flag_group df med_south threshold wse.2.1 d2
  pure (d3, if return_medians then some (med_west, med_south, med_east) else none)

/-- Modelled from the spec (§4.4 step 3), for comparison with the code: a
member's misfit is the mean absolute difference between member and group
median over exactly the timestamps where both are non-missing, and it is
undefined (`none`) when no such timestamp exists. -/
def specMisfit (df : DFrame) (f : String) (med : List (Option ℚ)) : Option ℚ :=
  let valid := (List.range df.nrows).filter fun t =>
    ((df.col f t).isSome && (med.getD t none).isSome)
  if valid.isEmpty then none
  else some ((valid.map fun t =>
    |((med.getD t none).getD 0) - ((df.col f t).getD 0)|).sum / (valid.length : ℚ))

end Analyse


/-- The flow series of the concrete scenario of §8 of the spec: samples
`[100, 125)` missing, flow `1` (≥ 0.5) everywhere else, 200 samples. -/
def C3_V_dot : List (Option ℚ) :=
  List.replicate 100 (some 1) ++ List.replicate 25 (none : Option ℚ)
    ++ List.replicate 75 (some 1)

/-- A temperature series aligned with `C3_V_dot`. -/
def C3_T_in : List (Option ℚ) := List.replicate 200 (some 1)

instance : DecidableEq ((List (String × ℚ)) ×
    Option (List (Option ℚ) × List (Option ℚ) × List (Option ℚ))) :=
  instDecidableEqProd

/-- A one-row table where device 01's inlet temperature reads 20 and every
other column reads 10. -/
def dfC5 : Analyse.DFrame :=
  { nrows := 1, col := fun c _ => if c = "Probe_01_T_in" then some 20 else some 10 }

/-- A one-row table where every column reads 10. -/
def dfC6 : Analyse.DFrame :=
  { nrows := 1, col := fun _ _ => some 10 }

/-! ## Proofs -/

namespace Load

theorem sliceSet_length (l : List Bool) (a b : ℕ) :
    (sliceSet l a b).length = l.length := by
  induction l generalizing a b with
  | nil => rfl
  | cons x xs ih => simp [sliceSet, ih]

theorem sliceSet_getD (l : List Bool) (a b k : ℕ) (hk : k < l.length) :
    (sliceSet l a b).getD k false
      = (l.getD k false || (decide (a ≤ k) && decide (k < b))) := by
  induction l generalizing a b k with
  | nil => simp at hk
  | cons x xs ih =>
    cases k with
    | zero => simp [sliceSet, Nat.le_zero]
    | succ k =>
      have hk' : k < xs.length := by simpa using hk
      have h1 : (decide (a - 1 ≤ k)) = (decide (a ≤ k + 1)) :=
        decide_eq_decide.mpr (by omega)
      have h2 : (decide (k < b - 1)) = (decide (k + 1 < b)) :=
        decide_eq_decide.mpr (by omega)
      simp only [sliceSet, List.getD_cons_succ, ih (a - 1) (b - 1) k hk', h1, h2]

theorem replicate_getD_false (n k : ℕ) :
    (List.replicate n false).getD k false = false := by
  induction n generalizing k with
  | zero => rfl
  | succ n ih =>
    cases k with
    | zero => rfl
    | succ k =>
      rw [List.replicate_succ, List.getD_cons_succ]
      exact ih k

theorem append_false_getD (bs : List Bool) (i : ℕ) :
    (bs ++ [false]).getD i false = bs.getD i false := by
  induction bs generalizing i with
  | nil => cases i <;> rfl
  | cons b bs ih =>
    cases i with
    | zero => rfl
    | succ i =>
      rw [List.cons_append, List.getD_cons_succ, List.getD_cons_succ]
      exact ih i

theorem padded_getD_zero (bs : List Bool) : (padded bs).getD 0 false = false := rfl

theorem padded_getD_succ (bs : List Bool) (i : ℕ) :
    (padded bs).getD (i + 1) false = bs.getD i false := by
  unfold padded
  rw [List.getD_cons_succ]
  exact append_false_getD bs i

theorem getD_cons_eq_prevS (b : Bool) (bs : List Bool) (i : ℕ) :
    (b :: bs).getD i false = prevS b bs i := by
  cases i with
  | zero => rfl
  | succ i =>
    rw [List.getD_cons_succ]
    unfold prevS
    simp

theorem riseAt_eq (bs : List Bool) (i : ℕ) :
    riseAt bs i = (getS bs i && !(prevS false bs i)) := by
  unfold riseAt getS prevS
  cases i with
  | zero => rw [padded_getD_succ, padded_getD_zero]; simp
  | succ i =>
    rw [padded_getD_succ, padded_getD_succ]
    simp

theorem fallAt_eq (bs : List Bool) (i : ℕ) :
    fallAt bs i = (prevS false bs i && !(getS bs i)) := by
  unfold fallAt getS prevS
  cases i with
  | zero => rw [padded_getD_zero, padded_getD_succ]; simp
  | succ i =>
    rw [padded_getD_succ, padded_getD_succ]
    simp

theorem nanStarts_eq (bs : List Bool) : nanStarts bs = startsP false bs := by
  unfold nanStarts startsP
  exact List.filter_congr (fun i _ => by rw [riseAt_eq])

theorem nanEnds_eq (bs : List Bool) : nanEnds bs = endsP false bs := by
  unfold nanEnds endsP
  exact List.filter_congr (fun i _ => by rw [fallAt_eq])

/-- The `riseAt` condition is exactly `nan_diff == 1` of the source. -/
theorem riseAt_iff_diff_one (bs : List Bool) (i : ℕ) (hi : i < bs.length + 1) :
    (riseAt bs i = true) ↔ (nanDiff bs).getD i 0 = 1 := by
  have hd : (nanDiff bs).getD i 0
      = (if (padded bs).getD (i + 1) false then (1 : ℤ) else 0) -
        (if (padded bs).getD i false then (1 : ℤ) else 0) := by
    unfold nanDiff
    rw [List.getD_eq_getElem _ _ (by simpa [nanDiff] using hi)]
    simp
  rw [hd]
  unfold riseAt
  cases h1 : (padded bs).getD (i + 1) false <;> cases h2 : (padded bs).getD i false <;> simp

/-- The `fallAt` condition is exactly `nan_diff == -1` of the source. -/
theorem fallAt_iff_diff_neg_one (bs : List Bool) (i : ℕ) (hi : i < bs.length + 1) :
    (fallAt bs i = true) ↔ (nanDiff bs).getD i 0 = -1 := by
  have hd : (nanDiff bs).getD i 0
      = (if (padded bs).getD (i + 1) false then (1 : ℤ) else 0) -
        (if (padded bs).getD i false then (1 : ℤ) else 0) := by
    unfold nanDiff
    rw [List.getD_eq_getElem _ _ (by simpa [nanDiff] using hi)]
    simp
  rw [hd]
  unfold fallAt
  cases h1 : (padded bs).getD (i + 1) false <;> cases h2 : (padded bs).getD i false <;> simp

end Load

namespace Load

theorem startsP_cons (prev b : Bool) (bs : List Bool) :
    startsP prev (b :: bs)
      = (if b && !prev then [0] else []) ++ (startsP b bs).map (· + 1) := by
  unfold startsP
  have hlen : (b :: bs).length + 1 = (bs.length + 1) + 1 := by simp
  rw [hlen, List.range_succ_eq_map, List.filter_cons]
  have h0 : (getS (b :: bs) 0 && !(prevS prev (b :: bs) 0)) = (b && !prev) := by
    unfold getS prevS
    simp
  have hsucc : ∀ i : ℕ,
      (getS (b :: bs) (Nat.succ i) && !(prevS prev (b :: bs) (Nat.succ i)))
        = (getS bs i && !(prevS b bs i)) := by
    intro i
    unfold getS prevS
    rw [List.getD_cons_succ]
    simp only [Nat.succ_ne_zero, if_false, Nat.succ_sub_one]
    rw [getD_cons_eq_prevS]
    rfl
  rw [h0, List.filter_map]
  have hfun : ((fun i => getS (b :: bs) i && !(prevS prev (b :: bs) i)) ∘ Nat.succ)
      = fun i => getS bs i && !(prevS b bs i) := by
    funext i
    exact hsucc i
  rw [hfun]
  have hmap : (Nat.succ : ℕ → ℕ) = (· + 1) := by
    funext i
    rfl
  rw [hmap]
  cases b <;> cases prev <;> simp

theorem endsP_cons (prev b : Bool) (bs : List Bool) :
    endsP prev (b :: bs)
      = (if prev && !b then [0] else []) ++ (endsP b bs).map (· + 1) := by
  unfold endsP
  have hlen : (b :: bs).length + 1 = (bs.length + 1) + 1 := by simp
  rw [hlen, List.range_succ_eq_map, List.filter_cons]
  have h0 : (prevS prev (b :: bs) 0 && !(getS (b :: bs) 0)) = (prev && !b) := by
    unfold getS prevS
    simp
  have hsucc : ∀ i : ℕ,
      (prevS prev (b :: bs) (Nat.succ i) && !(getS (b :: bs) (Nat.succ i)))
        = (prevS b bs i && !(getS bs i)) := by
    intro i
    unfold getS prevS
    rw [List.getD_cons_succ]
    simp only [Nat.succ_ne_zero, if_false, Nat.succ_sub_one]
    rw [getD_cons_eq_prevS]
    rfl
  rw [h0, List.filter_map]
  have hfun : ((fun i => prevS prev (b :: bs) i && !(getS (b :: bs) i)) ∘ Nat.succ)
      = fun i => prevS b bs i && !(getS bs i) := by
    funext i
    exact hsucc i
  rw [hfun]
  have hmap : (Nat.succ : ℕ → ℕ) = (· + 1) := by
    funext i
    rfl
  rw [hmap]
  cases b <;> cases prev <;> simp

end Load

namespace Load

theorem runsB_false_cons_false (bs : List Bool) :
    runsB false (false :: bs) = shiftR 1 (runsB false bs) := by simp [runsB]

theorem runsB_false_cons_true (bs : List Bool) :
    runsB false (true :: bs) = (0, leadLen bs + 1) :: shiftR 1 (runsB true bs) := by
  simp [runsB]

theorem runsB_true_cons_true (bs : List Bool) :
    runsB true (true :: bs) = shiftR 1 (runsB true bs) := by simp [runsB]

theorem runsB_true_cons_false (bs : List Bool) :
    runsB true (false :: bs) = shiftR 1 (runsB false bs) := by simp [runsB]

theorem zip_startsP_endsP (bs : List Bool) :
    ((startsP false bs).zip (endsP false bs) = runsB false bs) ∧
    ((endsP true bs).head? = some (leadLen bs) ∧
     (startsP true bs).zip ((endsP true bs).tail) = runsB true bs) := by
  induction bs with
  | nil => refine ⟨by decide, by decide, by decide⟩
  | cons b bs ih =>
    obtain ⟨ihZ, ihH, ihT⟩ := ih
    have hrec : leadLen bs :: (endsP true bs).tail = endsP true bs :=
      List.cons_head?_tail ihH
    cases b with
    | false =>
      refine ⟨?_, ?_, ?_⟩
      · rw [startsP_cons, endsP_cons]
        simp only [Bool.false_and, Bool.and_false, Bool.not_false, Bool.true_and,
          Bool.false_eq_true, if_false, if_true, List.nil_append]
        rw [List.zip_map]
        show shiftR 1 ((startsP false bs).zip (endsP false bs)) = _
        rw [ihZ, runsB_false_cons_false]
      · rw [endsP_cons]
        simp [leadLen]
      · rw [startsP_cons, endsP_cons]
        simp only [Bool.false_and, Bool.and_false, Bool.not_false, Bool.true_and,
          Bool.false_eq_true, if_false, if_true, List.nil_append, List.cons_append, List.tail_cons]
        rw [List.zip_map]
        show shiftR 1 ((startsP false bs).zip (endsP false bs)) = _
        rw [ihZ, runsB_true_cons_false]
    | true =>
      refine ⟨?_, ?_, ?_⟩
      · rw [startsP_cons, endsP_cons]
        simp only [Bool.true_and, Bool.and_true, Bool.not_false, Bool.false_and,
          Bool.and_false, Bool.false_eq_true, if_false, if_true, List.nil_append]
        rw [← hrec]
        simp only [List.map_cons, List.cons_append, List.nil_append, List.zip_cons_cons]
        rw [List.zip_map]
        show (0, leadLen bs + 1) :: shiftR 1 ((startsP true bs).zip ((endsP true bs).tail)) = _
        rw [ihT, runsB_false_cons_true]
      · rw [endsP_cons]
        simp only [Bool.true_and, Bool.not_true, Bool.and_false, Bool.false_eq_true, if_false, if_true, List.nil_append]
        rw [← hrec]
        simp [leadLen]
      · rw [startsP_cons, endsP_cons]
        simp only [Bool.not_true, Bool.and_false, Bool.false_eq_true, if_false, if_true, List.nil_append]
        rw [← hrec]
        simp only [List.map_cons, List.tail_cons]
        rw [List.zip_map]
        show shiftR 1 ((startsP true bs).zip ((endsP true bs).tail)) = _
        rw [ihT, runsB_true_cons_true]

theorem nanRuns_eq_runsB (bs : List Bool) : nanRuns bs = runsB false bs := by
  rw [nanRuns, nanStarts_eq, nanEnds_eq]
  exact (zip_startsP_endsP bs).1

end Load

namespace Load

theorem leadLen_le_length (bs : List Bool) : leadLen bs ≤ bs.length := by
  induction bs with
  | nil => simp [leadLen]
  | cons b bs ih =>
    unfold leadLen
    cases b with
    | false => simp
    | true => simp only [if_true, List.length_cons]; omega

theorem getD_lt_leadLen (bs : List Bool) (j : ℕ) (h : j < leadLen bs) :
    bs.getD j false = true := by
  induction bs generalizing j with
  | nil => simp [leadLen] at h
  | cons b bs ih =>
    unfold leadLen at h
    cases b with
    | false => simp at h
    | true =>
      simp only [if_true] at h
      cases j with
      | zero => rfl
      | succ j =>
        rw [List.getD_cons_succ]
        exact ih j (by omega)

theorem getD_leadLen (bs : List Bool) :
    leadLen bs = bs.length ∨ bs.getD (leadLen bs) false = false := by
  induction bs with
  | nil => left; rfl
  | cons b bs ih =>
    unfold leadLen
    cases b with
    | false => right; rfl
    | true =>
      simp only [if_true]
      rcases ih with h | h
      · left; simp [h]
      · right
        rw [List.getD_cons_succ]
        exact h

theorem maxRunP_zero (prev b : Bool) (bs : List Bool) (e : ℕ) :
    MaxRunP prev (b :: bs) 0 e ↔ (prev = false ∧ b = true ∧ e = leadLen (b :: bs)) := by
  constructor
  · rintro ⟨h1, h2, h3, h4, h5⟩
    simp only [if_pos rfl] at h4
    have hb : b = true := by
      have := h3 0 (Nat.zero_le 0) h1
      simpa using this
    refine ⟨h4, hb, ?_⟩
    have hle : e ≤ leadLen (b :: bs) := by
      by_contra hc
      push_neg at hc
      rcases getD_leadLen (b :: bs) with hL | hL
      · simp only [List.length_cons] at h2 hL
        omega
      · have := h3 (leadLen (b :: bs)) (Nat.zero_le _) hc
        rw [this] at hL
        exact Bool.noConfusion hL
    have hge : leadLen (b :: bs) ≤ e := by
      by_contra hc
      push_neg at hc
      have ht := getD_lt_leadLen (b :: bs) e hc
      rcases h5 with h | h
      · have := leadLen_le_length (b :: bs)
        omega
      · rw [ht] at h
        exact Bool.noConfusion h
    omega
  · rintro ⟨hprev, hb, he⟩
    subst hb
    have hlead : leadLen (true :: bs) = leadLen bs + 1 := by simp [leadLen]
    refine ⟨by omega, ?_, ?_, ?_, ?_⟩
    · rw [he]
      exact leadLen_le_length _
    · intro j _ hj
      exact getD_lt_leadLen _ j (by omega)
    · simp only [if_pos rfl]
      exact hprev
    · rw [he]
      exact getD_leadLen _

theorem maxRunP_succ (prev b : Bool) (bs : List Bool) (s e : ℕ) :
    MaxRunP prev (b :: bs) (s + 1) (e + 1) ↔ MaxRunP b bs s e := by
  unfold MaxRunP
  constructor
  · rintro ⟨h1, h2, h3, h4, h5⟩
    simp only [List.length_cons] at h2
    refine ⟨by omega, by omega, ?_, ?_, ?_⟩
    · intro j hj1 hj2
      have := h3 (j + 1) (by omega) (by omega)
      rwa [List.getD_cons_succ] at this
    · simp only [Nat.succ_ne_zero, if_false, Nat.add_sub_cancel] at h4
      cases s with
      | zero =>
        simp only [if_pos rfl]
        simpa using h4
      | succ s =>
        simp only [Nat.succ_ne_zero, if_false, Nat.succ_sub_one]
        rwa [List.getD_cons_succ] at h4
    · rcases h5 with h | h
      · left
        simp only [List.length_cons] at h
        omega
      · right
        rwa [List.getD_cons_succ] at h
  · rintro ⟨h1, h2, h3, h4, h5⟩
    refine ⟨by omega, by simp only [List.length_cons]; omega, ?_, ?_, ?_⟩
    · intro j hj1 hj2
      cases j with
      | zero => omega
      | succ j =>
        rw [List.getD_cons_succ]
        exact h3 j (by omega) (by omega)
    · simp only [Nat.succ_ne_zero, if_false, Nat.add_sub_cancel]
      cases s with
      | zero =>
        simp only [if_pos rfl] at h4
        simpa using h4
      | succ s =>
        simp only [Nat.succ_ne_zero, if_false, Nat.succ_sub_one] at h4
        rwa [List.getD_cons_succ]
    · rcases h5 with h | h
      · left
        simp only [List.length_cons]
        omega
      · right
        rwa [List.getD_cons_succ]

theorem mem_shiftR_one (l : List (ℕ × ℕ)) (s e : ℕ) :
    ((s, e) ∈ shiftR 1 l) ↔ ∃ a b, (a, b) ∈ l ∧ s = a + 1 ∧ e = b + 1 := by
  unfold shiftR
  rw [List.mem_map]
  constructor
  · rintro ⟨⟨a, b⟩, hm, hp⟩
    have h1 : a + 1 = s := congrArg Prod.fst hp
    have h2 : b + 1 = e := congrArg Prod.snd hp
    exact ⟨a, b, hm, h1.symm, h2.symm⟩
  · rintro ⟨a, b, hm, rfl, rfl⟩
    exact ⟨(a, b), hm, rfl⟩

theorem mem_runsB (bs : List Bool) : ∀ (prev : Bool) (s e : ℕ),
    ((s, e) ∈ runsB prev bs) ↔ MaxRunP prev bs s e := by
  induction bs with
  | nil =>
    intro prev s e
    constructor
    · intro h
      cases prev <;> simp [runsB] at h
    · rintro ⟨h1, h2, -⟩
      simp only [List.length_nil, Nat.le_zero] at h2
      omega
  | cons b bs ih =>
    intro prev s e
    have hshift : ∀ (p q : Bool), ((s, e) ∈ shiftR 1 (runsB q bs)) ↔
        (∃ a c, MaxRunP q bs a c ∧ s = a + 1 ∧ e = c + 1) := by
      intro p q
      rw [mem_shiftR_one]
      constructor
      · rintro ⟨a, c, hm, rfl, rfl⟩
        exact ⟨a, c, (ih q a c).mp hm, rfl, rfl⟩
      · rintro ⟨a, c, hm, rfl, rfl⟩
        exact ⟨a, c, (ih q a c).mpr hm, rfl, rfl⟩
    cases b with
    | true =>
      cases prev with
      | false =>
        rw [runsB_false_cons_true]
        constructor
        · intro h
          rcases List.mem_cons.mp h with h | h
          · have hs : s = 0 := congrArg Prod.fst h
            have he : e = leadLen bs + 1 := congrArg Prod.snd h
            subst hs
            subst he
            exact (maxRunP_zero false true bs _).mpr ⟨rfl, rfl, by simp [leadLen]⟩
          · rcases (hshift false true).mp h with ⟨a, c, hm, rfl, rfl⟩
            exact (maxRunP_succ false true bs a c).mpr hm
        · intro h
          cases s with
          | zero =>
            rcases (maxRunP_zero false true bs e).mp h with ⟨-, -, he⟩
            apply List.mem_cons.mpr
            left
            rw [he]
            simp [leadLen]
          | succ s =>
            cases e with
            | zero => exact absurd h.1 (by omega)
            | succ e =>
              apply List.mem_cons.mpr
              right
              exact (hshift false true).mpr ⟨s, e, (maxRunP_succ false true bs s e).mp h, rfl, rfl⟩
      | true =>
        rw [runsB_true_cons_true]
        constructor
        · intro h
          rcases (hshift true true).mp h with ⟨a, c, hm, rfl, rfl⟩
          exact (maxRunP_succ true true bs a c).mpr hm
        · intro h
          cases s with
          | zero =>
            rcases (maxRunP_zero true true bs e).mp h with ⟨hc, -, -⟩
            simp at hc
          | succ s =>
            cases e with
            | zero => exact absurd h.1 (by omega)
            | succ e =>
              exact (hshift true true).mpr ⟨s, e, (maxRunP_succ true true bs s e).mp h, rfl, rfl⟩
    | false =>
      cases prev with
      | false =>
        rw [runsB_false_cons_false]
        constructor
        · intro h
          rcases (hshift false false).mp h with ⟨a, c, hm, rfl, rfl⟩
          exact (maxRunP_succ false false bs a c).mpr hm
        · intro h
          cases s with
          | zero =>
            rcases (maxRunP_zero false false bs e).mp h with ⟨-, hc, -⟩
            simp at hc
          | succ s =>
            cases e with
            | zero => exact absurd h.1 (by omega)
            | succ e =>
              exact (hshift false false).mpr ⟨s, e, (maxRunP_succ false false bs s e).mp h, rfl, rfl⟩
      | true =>
        rw [runsB_true_cons_false]
        constructor
        · intro h
          rcases (hshift true false).mp h with ⟨a, c, hm, rfl, rfl⟩
          exact (maxRunP_succ true false bs a c).mpr hm
        · intro h
          cases s with
          | zero =>
            rcases (maxRunP_zero true false bs e).mp h with ⟨hc, -, -⟩
            simp at hc
          | succ s =>
            cases e with
            | zero => exact absurd h.1 (by omega)
            | succ e =>
              exact (hshift true false).mpr ⟨s, e, (maxRunP_succ true false bs s e).mp h, rfl, rfl⟩

theorem mem_nanRuns (bs : List Bool) (s e : ℕ) :
    ((s, e) ∈ nanRuns bs) ↔ MaxRun bs s e := by
  rw [nanRuns_eq_runsB]
  exact mem_runsB bs false s e

end Load

namespace Load

theorem foldl_ite_sliceSet_length {α : Type} (P : α → Prop) [DecidablePred P]
    (lo hi : α → ℕ) (l : List α) (m : List Bool) :
    (l.foldl (fun acc x => if P x then sliceSet acc (lo x) (hi x) else acc) m).length
      = m.length := by
  induction l generalizing m with
  | nil => rfl
  | cons a l ih =>
    rw [List.foldl_cons, ih]
    by_cases h : P a
    · rw [if_pos h, sliceSet_length]
    · rw [if_neg h]

theorem foldl_ite_sliceSet_getD {α : Type} (P : α → Prop) [DecidablePred P]
    (lo hi : α → ℕ) (l : List α) (m : List Bool) (k : ℕ) (hk : k < m.length) :
    ((l.foldl (fun acc x => if P x then sliceSet acc (lo x) (hi x) else acc) m).getD k false
        = true)
      ↔ (m.getD k false = true ∨ ∃ x ∈ l, P x ∧ lo x ≤ k ∧ k < hi x) := by
  induction l generalizing m with
  | nil => simp
  | cons a l ih =>
    rw [List.foldl_cons]
    have hk' : k < (if P a then sliceSet m (lo a) (hi a) else m).length := by
      by_cases h : P a
      · rw [if_pos h, sliceSet_length]; exact hk
      · rw [if_neg h]; exact hk
    rw [ih _ hk']
    by_cases h : P a
    · rw [if_pos h, sliceSet_getD _ _ _ _ hk]
      constructor
      · rintro (hh | ⟨x, hx, hPx, hr⟩)
        · simp only [Bool.or_eq_true, Bool.and_eq_true, decide_eq_true_eq] at hh
          rcases hh with hh | ⟨hh1, hh2⟩
          · exact Or.inl hh
          · exact Or.inr ⟨a, List.mem_cons_self a l, h, hh1, hh2⟩
        · exact Or.inr ⟨x, List.mem_cons_of_mem a hx, hPx, hr⟩
      · rintro (hh | ⟨x, hx, hPx, hr⟩)
        · exact Or.inl (by rw [hh, Bool.true_or])
        · rcases List.mem_cons.mp hx with rfl | hx'
          · exact Or.inl (by simp only [Bool.or_eq_true, Bool.and_eq_true,
              decide_eq_true_eq]; exact Or.inr ⟨hr.1, hr.2⟩)
          · exact Or.inr ⟨x, hx', hPx, hr⟩
    · rw [if_neg h]
      constructor
      · rintro (hh | ⟨x, hx, hPx, hr⟩)
        · exact Or.inl hh
        · exact Or.inr ⟨x, List.mem_cons_of_mem a hx, hPx, hr⟩
      · rintro (hh | ⟨x, hx, hPx, hr⟩)
        · exact Or.inl hh
        · rcases List.mem_cons.mp hx with rfl | hx'
          · exact absurd hPx h
          · exact Or.inr ⟨x, hx', hPx, hr⟩

theorem foldl_window_length (n : ℕ) (l : List ℕ) (m : List Bool) :
    (l.foldl (fun acc idx => sliceSet acc idx (idx + n + 1)) m).length = m.length := by
  induction l generalizing m with
  | nil => rfl
  | cons a l ih => rw [List.foldl_cons, ih, sliceSet_length]

theorem foldl_window_getD (n : ℕ) (l : List ℕ) (m : List Bool) (k : ℕ)
    (hk : k < m.length) :
    ((l.foldl (fun acc idx => sliceSet acc idx (idx + n + 1)) m).getD k false = true)
      ↔ (m.getD k false = true ∨ ∃ x ∈ l, x ≤ k ∧ k < x + n + 1) := by
  induction l generalizing m with
  | nil => simp
  | cons a l ih =>
    rw [List.foldl_cons]
    have hk' : k < (sliceSet m a (a + n + 1)).length := by
      rw [sliceSet_length]; exact hk
    rw [ih _ hk', sliceSet_getD _ _ _ _ hk]
    constructor
    · rintro (hh | ⟨x, hx, hr⟩)
      · simp only [Bool.or_eq_true, Bool.and_eq_true, decide_eq_true_eq] at hh
        rcases hh with hh | ⟨hh1, hh2⟩
        · exact Or.inl hh
        · exact Or.inr ⟨a, List.mem_cons_self a l, hh1, hh2⟩
      · exact Or.inr ⟨x, List.mem_cons_of_mem a hx, hr⟩
    · rintro (hh | ⟨x, hx, hr⟩)
      · exact Or.inl (by rw [hh, Bool.true_or])
      · rcases List.mem_cons.mp hx with rfl | hx'
        · exact Or.inl (by simp only [Bool.or_eq_true, Bool.and_eq_true,
            decide_eq_true_eq]; exact Or.inr ⟨hr.1, hr.2⟩)
        · exact Or.inr ⟨x, hx', hr⟩

theorem gapMask_length (V : List (Option ℚ)) (g n : ℕ) :
    (gapMask V g n).length = V.length := by
  unfold gapMask
  rw [foldl_ite_sliceSet_length]
  exact List.length_replicate V.length false

theorem gapMask_getD (V : List (Option ℚ)) (g n k : ℕ) (hk : k < V.length) :
    ((gapMask V g n).getD k false = true)
      ↔ ∃ s e, MaxRun (isnanL V) s e ∧ g < e - s ∧ s ≤ k ∧ k < min (e + n) V.length := by
  unfold gapMask
  rw [foldl_ite_sliceSet_getD (fun se : ℕ × ℕ => g < se.2 - se.1) Prod.fst
    (fun se => min (se.2 + n) V.length) (nanRuns (isnanL V))
    (List.replicate V.length false) k (by rw [List.length_replicate]; exact hk)]
  rw [replicate_getD_false]
  simp only [Bool.false_eq_true, false_or]
  constructor
  · rintro ⟨⟨s, e⟩, hm, hg, hle, hlt⟩
    exact ⟨s, e, (mem_nanRuns _ s e).mp hm, hg, hle, hlt⟩
  · rintro ⟨s, e, hm, hg, hle, hlt⟩
    exact ⟨(s, e), (mem_nanRuns _ s e).mpr hm, hg, hle, hlt⟩

theorem lowflow_length (V : List (Option ℚ)) : (lowflow V).length = V.length :=
  List.length_map V _

theorem lowflow_getD (V : List (Option ℚ)) (k : ℕ) :
    ((lowflow V).getD k false = true) ↔ ∃ q, V.getD k none = some q ∧ q < 0.5 := by
  induction V generalizing k with
  | nil =>
    simp only [lowflow, List.map_nil]
    constructor
    · intro h
      cases k <;> exact Bool.noConfusion h
    · rintro ⟨q, hq, -⟩
      cases k <;> exact Option.noConfusion hq
  | cons v V ih =>
    cases k with
    | zero =>
      show ((match v with
        | some q => decide (q < 0.5)
        | none => false) = true) ↔ _
      cases v with
      | none =>
        simp
      | some q =>
        simp
    | succ k =>
      show ((lowflow V).getD k false = true) ↔ _
      rw [ih k]
      rfl

end Load

namespace Load

theorem combinedMask_length (V : List (Option ℚ)) (g n : ℕ) :
    (combinedMask V g n).length = V.length := by
  unfold combinedMask
  rw [List.length_zipWith, gapMask_length, lowflow_length, min_self]

theorem combinedMask_getD (V : List (Option ℚ)) (g n k : ℕ) (hk : k < V.length) :
    (combinedMask V g n).getD k false
      = ((gapMask V g n).getD k false || (lowflow V).getD k false) := by
  unfold combinedMask
  have hlen : k < (List.zipWith (· || ·) (gapMask V g n) (lowflow V)).length := by
    rw [List.length_zipWith, gapMask_length, lowflow_length, min_self]
    exact hk
  rw [List.getD_eq_getElem _ _ hlen, List.getElem_zipWith,
    List.getD_eq_getElem _ _ (by rw [gapMask_length]; exact hk),
    List.getD_eq_getElem _ _ (by rw [lowflow_length]; exact hk)]

theorem mem_triggerIdx (V : List (Option ℚ)) (g n i : ℕ) :
    i ∈ triggerIdx V g n ↔ i < V.length ∧ (combinedMask V g n).getD i false = true := by
  unfold triggerIdx
  rw [List.mem_filter, List.mem_range, combinedMask_length]

theorem finalMask_length (nmask : ℕ) (V : List (Option ℚ)) (g n : ℕ) :
    (finalMask nmask V g n).length = nmask := by
  unfold finalMask
  rw [foldl_window_length]
  exact List.length_replicate nmask false

theorem finalMask_getD (nmask : ℕ) (V : List (Option ℚ)) (g n k : ℕ) (hk : k < nmask) :
    ((finalMask nmask V g n).getD k false = true)
      ↔ ∃ i, i < V.length ∧ (combinedMask V g n).getD i false = true ∧ i ≤ k ∧ k < i + n + 1 := by
  unfold finalMask
  rw [foldl_window_getD n (triggerIdx V g n) (List.replicate nmask false) k
    (by rw [List.length_replicate]; exact hk)]
  rw [replicate_getD_false]
  simp only [Bool.false_eq_true, false_or]
  constructor
  · rintro ⟨x, hx, hr⟩
    rcases (mem_triggerIdx V g n x).mp hx with ⟨h1, h2⟩
    exact ⟨x, h1, h2, hr⟩
  · rintro ⟨i, h1, h2, hr⟩
    exact ⟨i, (mem_triggerIdx V g n i).mpr ⟨h1, h2⟩, hr⟩

/-- The double-negated floor division is the ceiling, on every rational
input. -/
theorem nstepsPy_int_eq_ceil (t s : ℚ) : -(Int.floor ((-t) / s)) = Int.ceil (t / s) := by
  rw [neg_div, Int.floor_neg, neg_neg]

theorem nstepsPy_eq_ceil_toNat (t s : ℚ) : nstepsPy t s = (Int.ceil (t / s)).toNat := by
  unfold nstepsPy
  rw [nstepsPy_int_eq_ceil]

theorem create_BHE_data_mask_eq (T_in V_dot : List (Option ℚ)) (BHE : String)
    (timestep t : ℚ) (h : MASKING_TIMES.lookup BHE = some t) :
    create_BHE_data_mask T_in V_dot BHE timestep
      = .ok (finalMask T_in.length V_dot 20 (nstepsPy t timestep)) := by
  unfold create_BHE_data_mask
  rw [h]
  have : (finalMask T_in.length V_dot 20 (nstepsPy t timestep)).take T_in.length
      = finalMask T_in.length V_dot 20 (nstepsPy t timestep) := by
    apply List.take_of_length_le
    rw [finalMask_length]
  exact congrArg Except.ok this

theorem create_BHE_data_mask_unknown (T_in V_dot : List (Option ℚ)) (BHE : String)
    (timestep : ℚ) (h : MASKING_TIMES.lookup BHE = none) :
    create_BHE_data_mask T_in V_dot BHE timestep = .error "TypeError" := by
  unfold create_BHE_data_mask
  rw [h]

end Load

namespace Load

theorem isnanL_getD_false (V : List (Option ℚ)) (h : ∀ v ∈ V, v ≠ none) (j : ℕ) :
    (isnanL V).getD j false = false := by
  induction V generalizing j with
  | nil => cases j <;> rfl
  | cons v V ih =>
    cases j with
    | zero =>
      show v.isNone = false
      cases v with
      | none => exact absurd rfl (h none (List.mem_cons_self _ _))
      | some q => rfl
    | succ j =>
      show (isnanL V).getD j false = false
      exact ih (fun v hv => h v (List.mem_cons_of_mem _ hv)) j

theorem isnanL_all_none (V : List (Option ℚ)) (h : ∀ v ∈ V, v = none) :
    isnanL V = List.replicate V.length true := by
  induction V with
  | nil => rfl
  | cons v V ih =>
    have hv : v = none := h v (List.mem_cons_self _ _)
    subst hv
    show true :: isnanL V = List.replicate (V.length + 1) true
    rw [List.replicate_succ, ih (fun v hv => h v (List.mem_cons_of_mem _ hv))]

theorem leadLen_replicate_true (n : ℕ) : leadLen (List.replicate n true) = n := by
  induction n with
  | zero => rfl
  | succ n ih =>
    rw [List.replicate_succ]
    show leadLen (List.replicate n true) + 1 = n + 1
    rw [ih]

theorem runsB_true_replicate (n : ℕ) : runsB true (List.replicate n true) = [] := by
  induction n with
  | zero => rfl
  | succ n ih =>
    rw [List.replicate_succ, runsB_true_cons_true, ih]
    rfl

theorem runsB_false_replicate (n : ℕ) (h : 0 < n) :
    runsB false (List.replicate n true) = [(0, n)] := by
  cases n with
  | zero => omega
  | succ k =>
    rw [List.replicate_succ, runsB_false_cons_true, leadLen_replicate_true,
      runsB_true_replicate]
    rfl

theorem getD_true_lt_length (l : List Bool) (j : ℕ) (h : l.getD j false = true) :
    j < l.length := by
  by_contra hc
  push_neg at hc
  rw [List.getD_eq_default l false hc] at h
  exact Bool.noConfusion h

end Load

/-! ## Claim theorems -/

/-- C1: for every index `i` at which the trigger series is true (flow below
0.5, or `i` gap-affected — i.e. the combined mask), the mask returned by
`create_BHE_data_mask` is `True` over the half-open window
`[i, min (i + nsteps + 1) N)`, per trigger index independently; an isolated
low-flow sample is the special case of a single trigger index. -/
theorem C1_trigger_window (T_in V_dot : List (Option ℚ)) (BHE : String)
    (timestep t : ℚ) (h : Load.MASKING_TIMES.lookup BHE = some t)
    (hlen : T_in.length = V_dot.length) (i k : ℕ)
    (htrig : (Load.combinedMask V_dot 20 (Load.nstepsPy t timestep)).getD i false = true)
    (hik : i ≤ k)
    (hk : k < min (i + Load.nstepsPy t timestep + 1) V_dot.length) :
    ∃ m, Load.create_BHE_data_mask T_in V_dot BHE timestep = .ok m
      ∧ m.getD k false = true := by
  rw [Load.create_BHE_data_mask_eq T_in V_dot BHE timestep t h]
  refine ⟨_, rfl, ?_⟩
  have hkV : k < V_dot.length := lt_of_lt_of_le hk (min_le_right _ _)
  apply (Load.finalMask_getD T_in.length V_dot 20 _ k (by rw [hlen]; exact hkV)).mpr
  have hiV : i < V_dot.length := by
    have := Load.getD_true_lt_length _ i htrig
    rwa [Load.combinedMask_length] at this
  exact ⟨i, hiV, htrig, hik, lt_of_lt_of_le hk (min_le_left _ _)⟩

unseal Rat.ofScientific Rat.mul Rat.inv Rat.add Rat.sub in
/-- C1 witness: device "07", low flow at index 0, the window covers index 3. -/
theorem C1_trigger_window_witness :
    ∃ m, Load.create_BHE_data_mask (List.replicate 5 (some 1))
        [some 0, some 1, some 1, some 1, some 1] "07" 30 = .ok m
      ∧ m.getD 3 false = true :=
  C1_trigger_window (List.replicate 5 (some 1))
    [some 0, some 1, some 1, some 1, some 1] "07" 30 745.26
    (by decide) (by rfl) 0 3 (by decide) (by decide) (by decide)

/-- C2: the gap-affected mask is true at `k` iff `k` lies in
`[start, min (end + nsteps) N)` for some maximal missing-value run
`[start, end)` with `end - start > 20`; a series with no missing values
yields no runs, and an all-missing series yields the single run `[0, N)`. -/
theorem C2_gap_runs (V : List (Option ℚ)) (nsteps : ℕ) :
    (∀ k, k < V.length →
      ((Load.gapMask V 20 nsteps).getD k false = true ↔
        ∃ s e, Load.MaxRun (Load.isnanL V) s e ∧ 20 < e - s ∧ s ≤ k
          ∧ k < min (e + nsteps) V.length)) ∧
    ((∀ v ∈ V, v ≠ none) → Load.nanRuns (Load.isnanL V) = []) ∧
    ((∀ v ∈ V, v = none) → 0 < V.length →
      Load.nanRuns (Load.isnanL V) = [(0, V.length)]) := by
  refine ⟨fun k hk => Load.gapMask_getD V 20 nsteps k hk, ?_, ?_⟩
  · intro h
    rw [List.eq_nil_iff_forall_not_mem]
    rintro ⟨s, e⟩ hm
    rcases (Load.mem_nanRuns _ s e).mp hm with ⟨h1, h2, h3, h4, h5⟩
    have := h3 s (le_refl s) h1
    rw [Load.isnanL_getD_false V h s] at this
    exact Bool.noConfusion this
  · intro h hN
    rw [Load.nanRuns_eq_runsB, Load.isnanL_all_none V h]
    have hlen : (Load.isnanL V).length = V.length := List.length_map V _
    rw [Load.runsB_false_replicate V.length hN]

unseal Rat.ofScientific Rat.mul Rat.inv Rat.add Rat.sub in
/-- C2 witness: an all-missing series of length 22 (one maximal run `[0, 22)`,
longer than 20) makes the gap mask true at index 3 with `nsteps = 5`. -/
theorem C2_gap_runs_witness :
    (Load.gapMask (List.replicate 22 (none : Option ℚ)) 20 5).getD 3 false = true
      ∧ Load.nanRuns (Load.isnanL (List.replicate 22 (none : Option ℚ)))
          = [(0, 22)] := by
  have h := C2_gap_runs (List.replicate 22 (none : Option ℚ)) 5
  refine ⟨(h.1 3 (by decide)).mpr ⟨0, 22, by decide, by decide, by decide, by decide⟩,
    ?_⟩
  have h22 := h.2.2 (by decide) (by decide)
  simpa using h22

/-- C9: the returned mask never over-masks — it is true at `k` iff some
trigger index `j` (combined gap/low-flow mask) satisfies `j ≤ k ≤ j + nsteps`;
and a series with no missing flow values and flow at least 0.5 everywhere
yields the all-`False` mask. -/
theorem C9_no_overmask (T_in V_dot : List (Option ℚ)) (BHE : String)
    (timestep t : ℚ) (h : Load.MASKING_TIMES.lookup BHE = some t)
    (hlen : T_in.length = V_dot.length) :
    ∃ m, Load.create_BHE_data_mask T_in V_dot BHE timestep = .ok m
      ∧ (∀ k, k < V_dot.length →
          (m.getD k false = true ↔
            ∃ j, (Load.combinedMask V_dot 20 (Load.nstepsPy t timestep)).getD j false = true
              ∧ j ≤ k ∧ k ≤ j + Load.nstepsPy t timestep))
      ∧ ((∀ v ∈ V_dot, ∃ q, v = some q ∧ (1/2 : ℚ) ≤ q) →
          m = List.replicate V_dot.length false) := by
  rw [Load.create_BHE_data_mask_eq T_in V_dot BHE timestep t h]
  refine ⟨_, rfl, ?_, ?_⟩
  · intro k hkV
    rw [Load.finalMask_getD T_in.length V_dot 20 _ k (by rw [hlen]; exact hkV)]
    constructor
    · rintro ⟨i, h1, h2, h3, h4⟩
      exact ⟨i, h2, h3, by omega⟩
    · rintro ⟨j, h2, h3, h4⟩
      have hjV : j < V_dot.length := by
        have := Load.getD_true_lt_length _ j h2
        rwa [Load.combinedMask_length] at this
      exact ⟨j, hjV, h2, h3, by omega⟩
  · intro hval
    have hnonone : ∀ v ∈ V_dot, v ≠ none := by
      intro v hv
      rcases hval v hv with ⟨q, rfl, -⟩
      simp
    have hcomb : ∀ j, (Load.combinedMask V_dot 20 (Load.nstepsPy t timestep)).getD j false = false := by
      intro j
      by_cases hj : j < V_dot.length
      · rw [Load.combinedMask_getD _ _ _ j hj]
        have hgap : (Load.gapMask V_dot 20 (Load.nstepsPy t timestep)).getD j false = false := by
          cases hB : (Load.gapMask V_dot 20 (Load.nstepsPy t timestep)).getD j false with
          | false => rfl
          | true =>
            rcases (Load.gapMask_getD V_dot 20 _ j hj).mp hB with
              ⟨s, e, ⟨h1, h2, h3, h4, h5⟩, -, -, -⟩
            have := h3 s (le_refl s) h1
            rw [Load.isnanL_getD_false V_dot hnonone s] at this
            exact Bool.noConfusion this
        have hlow : (Load.lowflow V_dot).getD j false = false := by
          cases hB : (Load.lowflow V_dot).getD j false with
          | false => rfl
          | true =>
            rcases (Load.lowflow_getD V_dot j).mp hB with ⟨q, hq, hqlt⟩
            have hmem : V_dot.getD j none ∈ V_dot := by
              rw [List.getD_eq_getElem _ _ hj]
              exact List.getElem_mem _
            rw [hq] at hmem
            rcases hval (some q) hmem with ⟨q', hq', hge⟩
            have : q = q' := by
              injection hq'
            subst this
            have : (0.5 : ℚ) = 1/2 := by norm_num
            rw [this] at hqlt
            exact absurd hqlt (not_lt.mpr hge)
        rw [hgap, hlow]
        rfl
      · push_neg at hj
        apply List.getD_eq_default
        rw [Load.combinedMask_length]
        exact hj
    have htrig : Load.triggerIdx V_dot 20 (Load.nstepsPy t timestep) = [] := by
      unfold Load.triggerIdx
      apply List.filter_eq_nil_iff.mpr
      intro a _
      rw [hcomb a]
      simp
    unfold Load.finalMask
    rw [htrig, List.foldl_nil, hlen]

unseal Rat.ofScientific Rat.mul Rat.inv Rat.add Rat.sub in
/-- C9 witness: a 4-sample series with flow 1 everywhere yields the all-false
mask, and the iff holds at index 0 of a series with low flow at index 0. -/
theorem C9_no_overmask_witness :
    ∃ m, Load.create_BHE_data_mask (List.replicate 4 (some 1))
        (List.replicate 4 (some 1)) "07" 30 = .ok m
      ∧ m = List.replicate 4 false := by
  rcases C9_no_overmask (List.replicate 4 (some 1)) (List.replicate 4 (some 1))
    "07" 30 745.26 (by decide) (by rfl) with ⟨m, hm, -, hall⟩
  refine ⟨m, hm, ?_⟩
  have := hall (by decide)
  simpa using this

unseal Rat.ofScientific Rat.mul Rat.inv Rat.add Rat.sub in
/-- C4: the look-ahead step count `int(-(-t // s))` is the ceiling of `t / s`;
for device "07" (745.26 s transit time, 30 s sampling interval) it is 25. -/
theorem C4_nsteps_ceiling :
    (∀ t s : ℚ, -(Int.floor ((-t) / s)) = Int.ceil (t / s)) ∧
    (∀ t s : ℚ, Load.nstepsPy t s = (Int.ceil (t / s)).toNat) ∧
    Load.MASKING_TIMES.lookup "07" = some 745.26 ∧
    Load.nstepsPy 745.26 30 = 25 := by
  refine ⟨Load.nstepsPy_int_eq_ceil, Load.nstepsPy_eq_ceil_toNat, by decide, by decide⟩

set_option maxRecDepth 10000 in
unseal Rat.ofScientific Rat.mul Rat.inv Rat.add Rat.sub in
/-- C3 counterexample: in the §8 scenario (device "07", missing flow on
`[100, 125)`, flow ≥ 0.5 elsewhere) the returned mask is still true at index
160, so the true region is not "exactly `[100, 151)`" as the claim states. -/
theorem C3_counterexample :
    (Load.create_BHE_data_mask C3_T_in C3_V_dot "07" 30).toOption.map
      (fun m => m.getD 160 false) = some true := by decide

set_option maxRecDepth 10000 in
unseal Rat.ofScientific Rat.mul Rat.inv Rat.add Rat.sub in
/-- C3 amended: the mask of the §8 scenario is true on `[100, 150)` (the
gap-mask part) and the per-trigger-index look-ahead extends the true region
to exactly `[100, 175)`: the last gap-extended trigger index 149 re-triggers
a further `nsteps + 1 = 26` samples. -/
theorem C3_amended :
    (Load.create_BHE_data_mask C3_T_in C3_V_dot "07" 30).toOption
      = some ((List.range 200).map fun k => decide (100 ≤ k ∧ k < 175)) := by decide

namespace Load2

/-- A `foldlM` over `Except` whose step never fails returns `ok`. -/
theorem foldlM_ok {α β : Type} (f : β → α → Except String β)
    (hf : ∀ b a, ∃ b', f b a = .ok b') :
    ∀ (l : List α) (acc : β), ∃ r, l.foldlM f acc = .ok r := by
  intro l
  induction l with
  | nil => exact fun acc => ⟨acc, rfl⟩
  | cons a l ih =>
    intro acc
    rcases hf acc a with ⟨b', hb⟩
    rw [List.foldlM_cons, hb]
    exact ih b'

theorem nstepsPy2_pint_zero (ts : ℤ) : nstepsPy2 (.pint 0) ts = .pint 0 := by
  unfold nstepsPy2 PyNum.neg PyNum.floordiv
  simp [Int.zero_fdiv]

theorem nstepsPy2_pfloat (t : ℚ) (ts : ℤ) :
    nstepsPy2 (.pfloat t) ts = .pfloat (-((Int.floor ((-t) / (ts : ℚ)) : ℤ) : ℚ)) := by
  unfold nstepsPy2 PyNum.neg PyNum.floordiv PyNum.val
  rfl

theorem create_nan_mask_pint_ok (series : List (Option ℚ)) (g : ℕ) (z : ℤ) :
    ∃ r, create_nan_mask series g (.pint z) = .ok r := by
  apply foldlM_ok
  intro m se
  by_cases hg : g < se.2 - se.1
  · rw [if_pos hg]
    have : ∃ ub, (PyNum.pymin (PyNum.add (.pint (se.2 : ℤ)) (.pint z))
        (.pint (series.length : ℤ))).sliceIndex = .ok ub := by
      unfold PyNum.pymin PyNum.add
      split
      · exact ⟨_, rfl⟩
      · exact ⟨_, rfl⟩
    rcases this with ⟨ub, hub⟩
    exact ⟨_, by rw [hub]; rfl⟩
  · rw [if_neg hg]
    exact ⟨m, rfl⟩

end Load2

namespace Load2

theorem mainloop_pint_ok (z : ℤ) (l : List ℕ) (acc : List Bool) :
    ∃ r, l.foldlM
        (fun m idx => do
          let ub ← (((PyNum.pint (idx : ℤ)).add (.pint z)).add (.pint 1)).sliceIndex
          pure (Load.sliceSet m idx ub)) acc = .ok r :=
  foldlM_ok _ (fun m idx => ⟨Load.sliceSet m idx ((idx + z + 1).toNat), rfl⟩) l acc

theorem create2_unknown_ok (T_in V_dot : List (Option ℚ)) (BHE : String) (ts : ℤ)
    (h : Load.MASKING_TIMES.lookup BHE = none) :
    ∃ m, create_BHE_data_mask T_in V_dot BHE ts = .ok m := by
  unfold create_BHE_data_mask
  rw [h]
  simp only [nstepsPy2_pint_zero]
  rcases create_nan_mask_pint_ok V_dot 20 0 with ⟨r, hr⟩
  rw [hr]
  rw [show ∀ (k : List Bool → Except String (List Bool)),
      ((Except.ok r : Except String (List Bool)) >>= k) = k r from fun k => rfl]
  rcases mainloop_pint_ok 0
    (List.filter (fun i => (List.zipWith (· || ·) r (Load.lowflow V_dot)).getD i false)
      (List.range (List.zipWith (· || ·) r (Load.lowflow V_dot)).length))
    (List.replicate T_in.length false) with ⟨r2, hr2⟩
  rw [hr2]
  exact ⟨List.take T_in.length r2, rfl⟩

end Load2

unseal Rat.ofScientific Rat.mul Rat.inv Rat.add Rat.sub in
/-- C7 counterexample: in `load.py`, `MASKING_TIMES.get(BHE)` has no default,
so an unknown device ("41") makes `create_BHE_data_mask` raise `TypeError`
instead of returning a mask — refuting the claim for that implementation. -/
theorem C7_counterexample :
    Load.create_BHE_data_mask (List.replicate 3 (some 1)) (List.replicate 3 (some 1))
      "41" 30 = .error "TypeError" := by
  apply Load.create_BHE_data_mask_unknown
  decide

/-- C7 amended: for a device with no transit-time entry, the `load2.py`
implementation uses the int default `0`, computes `nsteps = pint 0` (no
look-ahead) and returns a mask normally, while the `load.py` implementation
raises `TypeError`. -/
theorem C7_unknown_device (T_in V_dot : List (Option ℚ)) (BHE : String)
    (tsQ : ℚ) (tsZ : ℤ) (h : Load.MASKING_TIMES.lookup BHE = none) :
    Load.create_BHE_data_mask T_in V_dot BHE tsQ = .error "TypeError" ∧
    Load2.nstepsPy2 (.pint 0) tsZ = .pint 0 ∧
    ∃ m, Load2.create_BHE_data_mask T_in V_dot BHE tsZ = .ok m :=
  ⟨Load.create_BHE_data_mask_unknown T_in V_dot BHE tsQ h,
   Load2.nstepsPy2_pint_zero tsZ,
   Load2.create2_unknown_ok T_in V_dot BHE tsZ h⟩

unseal Rat.ofScientific Rat.mul Rat.inv Rat.add Rat.sub in
/-- C7 witness: device "41" is absent from the table; `load.py` errors and
`load2.py` returns a mask. -/
theorem C7_unknown_device_witness :
    Load.create_BHE_data_mask [some 1] [some 1] "41" 7 = .error "TypeError" ∧
    Load2.nstepsPy2 (.pint 0) 7 = .pint 0 ∧
    ∃ m, Load2.create_BHE_data_mask [some 1] [some 1] "41" 7 = .ok m :=
  C7_unknown_device [some 1] [some 1] "41" 7 7 (by decide)

namespace Load2

theorem except_bind_ok {β γ : Type} (a : β) (k : β → Except String γ) :
    (Except.ok a >>= k : Except String γ) = k a := rfl

theorem except_bind_error {β γ : Type} (e : String) (k : β → Except String γ) :
    ((Except.error e : Except String β) >>= k : Except String γ) = Except.error e := rfl

theorem except_pure_bind {β γ : Type} (a : β) (k : β → Except String γ) :
    ((pure a : Except String β) >>= k : Except String γ) = k a := rfl

theorem sliceIndex_error (pn : PyNum) (err : String) :
    pn.sliceIndex = .error err → err = "TypeError" := by
  cases pn with
  | pint z => intro h; exact Except.noConfusion h
  | pfloat q =>
    intro h
    injection h with h'
    exact h'.symm

/-- A `foldlM` whose step can only fail with `TypeError` fails only with
`TypeError`. -/
theorem foldlM_error_str {α β : Type} (f : β → α → Except String β)
    (hf : ∀ b a err, f b a = .error err → err = "TypeError") :
    ∀ (l : List α) (acc : β) (err : String),
      l.foldlM f acc = .error err → err = "TypeError" := by
  intro l
  induction l with
  | nil =>
    intro acc err h
    exact Except.noConfusion h
  | cons a l ih =>
    intro acc err h
    rw [List.foldlM_cons] at h
    cases hfa : f acc a with
    | error e =>
      rw [hfa, except_bind_error] at h
      injection h with h'
      exact (h' ▸ hf acc a e hfa)
    | ok b =>
      rw [hfa, except_bind_ok] at h
      exact ih b err h

theorem nan_step_error (len g : ℕ) (nsteps : PyNum) (m : List Bool) (se : ℕ × ℕ)
    (err : String)
    (h : (if g < se.2 - se.1 then do
        let ub ← (PyNum.pymin ((PyNum.pint (se.2 : ℤ)).add nsteps)
          (.pint (len : ℤ))).sliceIndex
        pure (Load.sliceSet m se.1 ub)
      else pure m) = Except.error err) : err = "TypeError" := by
  by_cases hg : g < se.2 - se.1
  · rw [if_pos hg] at h
    cases hX : (PyNum.pymin ((PyNum.pint (se.2 : ℤ)).add nsteps)
        (.pint (len : ℤ))).sliceIndex with
    | error e =>
      rw [hX, except_bind_error] at h
      injection h with h'
      exact (h' ▸ sliceIndex_error _ e hX)
    | ok ub =>
      rw [hX, except_bind_ok] at h
      exact Except.noConfusion h
  · rw [if_neg hg] at h
    exact Except.noConfusion h

theorem create_nan_mask_error (series : List (Option ℚ)) (g : ℕ) (nsteps : PyNum)
    (err : String) (h : create_nan_mask series g nsteps = .error err) :
    err = "TypeError" := by
  refine foldlM_error_str _ ?_ _ _ err h
  intro b a e he
  exact nan_step_error series.length g nsteps b a e he

/-- When no run passes the gap-length guard, `create_nan_mask`-style folds
return their accumulator unchanged. -/
theorem nan_foldlM_no_guard (len g : ℕ) (nsteps : PyNum) :
    ∀ (l : List (ℕ × ℕ)) (acc : List Bool), (∀ se ∈ l, ¬(g < se.2 - se.1)) →
      l.foldlM (fun m se =>
        if g < se.2 - se.1 then do
          let ub ← (PyNum.pymin ((PyNum.pint (se.2 : ℤ)).add nsteps)
            (.pint (len : ℤ))).sliceIndex
          pure (Load.sliceSet m se.1 ub)
        else pure m) acc = .ok acc := by
  intro l
  induction l with
  | nil => intro acc _; rfl
  | cons se l ih =>
    intro acc hno
    rw [List.foldlM_cons, if_neg (hno se (List.mem_cons_self _ _))]
    exact ih acc (fun x hx => hno x (List.mem_cons_of_mem _ hx))

end Load2

namespace Load2

theorem pymin_pfloat_pint (x : ℚ) (n : ℤ) :
    PyNum.pymin (.pfloat x) (.pint n) = if (n : ℚ) < x then .pint n else .pfloat x := rfl

theorem add_pint_pfloat (a : ℤ) (c : ℚ) :
    (PyNum.pint a).add (.pfloat c) = .pfloat ((a : ℚ) + c) := rfl

/-- Success analysis of the `create_nan_mask` fold when `nsteps` is a float:
the only way a guarded step succeeds is `min` picking the int series length,
so a successful fold keeps its length, keeps every `true`, and has set the
start sample of every guarded run. -/
theorem nan_foldlM_pfloat_ok (len g : ℕ) (c : ℚ) :
    ∀ (l : List (ℕ × ℕ)) (acc r : List Bool), acc.length = len →
      l.foldlM (fun m se =>
        if g < se.2 - se.1 then do
          let ub ← (PyNum.pymin ((PyNum.pint (se.2 : ℤ)).add (.pfloat c))
            (.pint (len : ℤ))).sliceIndex
          pure (Load.sliceSet m se.1 ub)
        else pure m) acc = .ok r →
      r.length = len ∧ (∀ k, acc.getD k false = true → r.getD k false = true) ∧
      (∀ se ∈ l, g < se.2 - se.1 → se.1 < len → r.getD se.1 false = true) := by
  intro l
  induction l with
  | nil =>
    intro acc r hlen h
    injection h with h'
    subst h'
    exact ⟨hlen, fun k hk => hk, fun se hse => absurd hse (List.not_mem_nil se)⟩
  | cons se0 l ih =>
    intro acc r hlen h
    rw [List.foldlM_cons] at h
    by_cases hg : g < se0.2 - se0.1
    · rw [if_pos hg] at h
      rw [add_pint_pfloat, pymin_pfloat_pint] at h
      by_cases hlt : ((len : ℤ) : ℚ) < (se0.2 : ℤ) + c
      · rw [if_pos hlt] at h
        have hslice : (PyNum.pint (len : ℤ)).sliceIndex = .ok len := by
          show Except.ok ((len : ℤ).toNat) = Except.ok len
          rw [Int.toNat_natCast]
        rw [hslice, except_bind_ok, except_pure_bind] at h
        have hlen' : (Load.sliceSet acc se0.1 len).length = len := by
          rw [Load.sliceSet_length]; exact hlen
        rcases ih _ r hlen' h with ⟨h1, h2, h3⟩
        refine ⟨h1, ?_, ?_⟩
        · intro k hk
          have hklt : k < acc.length := Load.getD_true_lt_length acc k hk
          apply h2
          rw [Load.sliceSet_getD acc se0.1 len k hklt, hk, Bool.true_or]
        · intro se hse hgse hselt
          rcases List.mem_cons.mp hse with rfl | hse'
          · apply h2
            rw [Load.sliceSet_getD acc se.1 len se.1 (by rw [hlen]; exact hselt)]
            have : (decide (se.1 ≤ se.1) && decide (se.1 < len)) = true := by
              simp [hselt]
            rw [this, Bool.or_true]
          · exact h3 se hse' hgse hselt
      · rw [if_neg hlt] at h
        rw [show (PyNum.pfloat (((se0.2 : ℤ) : ℚ) + c)).sliceIndex
          = Except.error "TypeError" from rfl, except_bind_error, except_bind_error] at h
        exact Except.noConfusion h
    · rw [if_neg hg] at h
      rw [show (pure acc : Except String (List Bool)) = Except.ok acc from rfl,
        except_bind_ok] at h
      rcases ih acc r hlen h with ⟨h1, h2, h3⟩
      refine ⟨h1, h2, ?_⟩
      intro se hse hgse hselt
      rcases List.mem_cons.mp hse with rfl | hse'
      · exact absurd hgse hg
      · exact h3 se hse' hgse hselt

end Load2

namespace Load2

theorem mainloop_pfloat_error (c : ℚ) (a : ℕ) (l : List ℕ) (acc : List Bool) :
    (a :: l).foldlM (fun m idx => do
      let ub ← (((PyNum.pint (idx : ℤ)).add (.pfloat c)).add (.pint 1)).sliceIndex
      pure (Load.sliceSet m idx ub)) acc = .error "TypeError" := rfl

theorem create2_no_trigger_ok (T_in V_dot : List (Option ℚ)) (BHE : String)
    (ts : ℤ) (t : ℚ) (h : Load.MASKING_TIMES.lookup BHE = some t)
    (hA : ∀ i, i < V_dot.length → (Load.lowflow V_dot).getD i false = false)
    (hB : ∀ s e, Load.MaxRun (Load.isnanL V_dot) s e → ¬(20 < e - s)) :
    ∃ m, create_BHE_data_mask T_in V_dot BHE ts = .ok m := by
  unfold create_BHE_data_mask
  rw [h]
  simp only [nstepsPy2_pfloat]
  generalize (-((Int.floor ((-t) / ((ts : ℤ) : ℚ)) : ℤ) : ℚ)) = c
  have hnan : create_nan_mask V_dot 20 (.pfloat c)
      = .ok (List.replicate V_dot.length false) := by
    apply nan_foldlM_no_guard
    rintro ⟨s, e⟩ hse
    exact hB s e ((Load.mem_nanRuns _ s e).mp hse)
  rw [hnan, except_bind_ok]
  have hfilter : List.filter
      (fun i => (List.zipWith (· || ·) (List.replicate V_dot.length false)
        (Load.lowflow V_dot)).getD i false)
      (List.range (List.zipWith (· || ·) (List.replicate V_dot.length false)
        (Load.lowflow V_dot)).length) = [] := by
    apply List.filter_eq_nil_iff.mpr
    intro i hi
    rw [List.mem_range, List.length_zipWith, List.length_replicate,
      Load.lowflow_length, min_self] at hi
    have hgd : (List.zipWith (· || ·) (List.replicate V_dot.length false)
        (Load.lowflow V_dot)).getD i false = false := by
      rw [List.getD_eq_getElem _ _ (by
        rw [List.length_zipWith, List.length_replicate, Load.lowflow_length, min_self]
        exact hi)]
      rw [List.getElem_zipWith, List.getElem_replicate, Bool.false_or,
        ← List.getD_eq_getElem (Load.lowflow V_dot) false
          (by rw [Load.lowflow_length]; exact hi)]
      exact hA i hi
    intro hcontra
    rw [hgd] at hcontra
    exact Bool.noConfusion hcontra
  rw [hfilter]
  exact ⟨_, rfl⟩

theorem create2_trigger_error (T_in V_dot : List (Option ℚ)) (BHE : String)
    (ts : ℤ) (t : ℚ) (h : Load.MASKING_TIMES.lookup BHE = some t)
    (htrig : (∃ i, i < V_dot.length ∧ (Load.lowflow V_dot).getD i false = true) ∨
      (∃ s e, Load.MaxRun (Load.isnanL V_dot) s e ∧ 20 < e - s)) :
    create_BHE_data_mask T_in V_dot BHE ts = .error "TypeError" := by
  unfold create_BHE_data_mask
  rw [h]
  simp only [nstepsPy2_pfloat]
  generalize (-((Int.floor ((-t) / ((ts : ℤ) : ℚ)) : ℤ) : ℚ)) = c
  cases hnan : create_nan_mask V_dot 20 (.pfloat c) with
  | error err =>
    rw [except_bind_error, create_nan_mask_error V_dot 20 _ err hnan]
  | ok mnan =>
    rw [except_bind_ok]
    have hfold : (Load.nanRuns (Load.isnanL V_dot)).foldlM (fun m se =>
        if 20 < se.2 - se.1 then do
          let ub ← (PyNum.pymin ((PyNum.pint (se.2 : ℤ)).add (.pfloat c))
            (.pint (V_dot.length : ℤ))).sliceIndex
          pure (Load.sliceSet m se.1 ub)
        else pure m) (List.replicate V_dot.length false) = .ok mnan := hnan
    rcases nan_foldlM_pfloat_ok V_dot.length 20 c (Load.nanRuns (Load.isnanL V_dot))
      (List.replicate V_dot.length false) mnan (List.length_replicate _ _) hfold with
      ⟨hlenm, hmono, hstart⟩
    have hcombl : (List.zipWith (· || ·) mnan (Load.lowflow V_dot)).length
        = V_dot.length := by
      rw [List.length_zipWith, hlenm, Load.lowflow_length, min_self]
    obtain ⟨j, hjV, hcombj⟩ : ∃ j, j < V_dot.length ∧
        (List.zipWith (· || ·) mnan (Load.lowflow V_dot)).getD j false = true := by
      rcases htrig with ⟨i, hiV, hlow⟩ | ⟨s, e, hrun, hgap⟩
      · refine ⟨i, hiV, ?_⟩
        rw [List.getD_eq_getElem _ _ (by rw [hcombl]; exact hiV),
          List.getElem_zipWith,
          ← List.getD_eq_getElem (Load.lowflow V_dot) false
            (by rw [Load.lowflow_length]; exact hiV), hlow, Bool.or_true]
      · have hsV : s < V_dot.length := by
          rcases hrun with ⟨h1, h2, -⟩
          have : (Load.isnanL V_dot).length = V_dot.length := List.length_map _ _
          omega
        refine ⟨s, hsV, ?_⟩
        have hms : mnan.getD s false = true :=
          hstart (s, e) ((Load.mem_nanRuns _ s e).mpr hrun) hgap hsV
        rw [List.getD_eq_getElem _ _ (by rw [hcombl]; exact hsV),
          List.getElem_zipWith,
          ← List.getD_eq_getElem mnan false (by rw [hlenm]; exact hsV), hms,
          Bool.true_or]
    have hjmem : j ∈ List.filter
        (fun i => (List.zipWith (· || ·) mnan (Load.lowflow V_dot)).getD i false)
        (List.range (List.zipWith (· || ·) mnan (Load.lowflow V_dot)).length) := by
      rw [List.mem_filter, List.mem_range, hcombl]
      exact ⟨hjV, hcombj⟩
    cases hind : List.filter
        (fun i => (List.zipWith (· || ·) mnan (Load.lowflow V_dot)).getD i false)
        (List.range (List.zipWith (· || ·) mnan (Load.lowflow V_dot)).length) with
    | nil =>
      rw [hind] at hjmem
      exact absurd hjmem (List.not_mem_nil j)
    | cons a l =>
      rw [mainloop_pfloat_error c a l (List.replicate T_in.length false),
        except_bind_error]

end Load2

unseal Rat.ofScientific Rat.mul Rat.inv Rat.add Rat.sub in
/-- C10: in `load2.py` every transit time in `MASKING_TIMES` is a non-integer
float, `nsteps = -(-time_to_mask // timestep)` is a Python float for every
known device, and `create_BHE_data_mask` raises `TypeError` exactly when the
window contains a low-flow sample or a missing-flow run longer than 20
samples; for an unknown device the int default `0` is used and a mask is
returned. -/
theorem C10_float_nsteps_typeerror :
    (∀ p ∈ Load.MASKING_TIMES, (p.2).den ≠ 1) ∧
    (∀ (t : ℚ) (ts : ℤ), ∃ q : ℚ, Load2.nstepsPy2 (.pfloat t) ts = .pfloat q) ∧
    (∀ (T_in V_dot : List (Option ℚ)) (BHE : String) (t : ℚ),
      Load.MASKING_TIMES.lookup BHE = some t →
      (Load2.create_BHE_data_mask T_in V_dot BHE 30 = .error "TypeError" ↔
        ((∃ i, i < V_dot.length ∧ (Load.lowflow V_dot).getD i false = true) ∨
         (∃ s e, Load.MaxRun (Load.isnanL V_dot) s e ∧ 20 < e - s)))) ∧
    (∀ (T_in V_dot : List (Option ℚ)) (BHE : String),
      Load.MASKING_TIMES.lookup BHE = none →
      ∃ m, Load2.create_BHE_data_mask T_in V_dot BHE 30 = .ok m) := by
  refine ⟨by decide, ?_, ?_, ?_⟩
  · intro t ts
    exact ⟨_, Load2.nstepsPy2_pfloat t ts⟩
  · intro T_in V_dot BHE t h
    constructor
    · intro herr
      by_contra htrig
      push_neg at htrig
      obtain ⟨hA, hB⟩ := htrig
      have hA' : ∀ i, i < V_dot.length → (Load.lowflow V_dot).getD i false = false := by
        intro i hi
        have := hA i hi
        revert this
        cases (Load.lowflow V_dot).getD i false <;> simp
      have hB' : ∀ s e, Load.MaxRun (Load.isnanL V_dot) s e → ¬(20 < e - s) := by
        intro s e hrun hgap
        have := hB s e hrun
        omega
      rcases Load2.create2_no_trigger_ok T_in V_dot BHE 30 t h hA' hB' with ⟨m, hm⟩
      rw [hm] at herr
      exact Except.noConfusion herr
    · exact Load2.create2_trigger_error T_in V_dot BHE 30 t h
  · intro T_in V_dot BHE h
    exact Load2.create2_unknown_ok T_in V_dot BHE 30 h

unseal Rat.ofScientific Rat.mul Rat.inv Rat.add Rat.sub in
/-- C10 witness: device "07" with one low-flow sample raises `TypeError`. -/
theorem C10_float_nsteps_typeerror_witness :
    Load2.create_BHE_data_mask [some 1, some 1] [some 0, some 1] "07" 30
      = .error "TypeError" :=
  (C10_float_nsteps_typeerror.2.2.1 [some 1, some 1] [some 0, some 1] "07" 745.26
      (by decide)).mpr
    (Or.inl ⟨0, by decide, by decide⟩)

namespace Analyse

theorem pad2_inj_small : ∀ x, x < 41 → ∀ y, y < 41 → pad2 x = pad2 y → x = y := by
  decide

theorem pad2_length_small : ∀ x, x < 41 → (pad2 x).length = 2 := by decide

theorem string_append_right_cancel (p q suf : String) (hlen : p.length = q.length)
    (h : p ++ suf = q ++ suf) : p = q := by
  have hd : (p ++ suf).data = (q ++ suf).data := congrArg String.data h
  rw [String.data_append, String.data_append] at hd
  have hdl : p.data.length = q.data.length := hlen
  have := List.append_inj hd hdl
  cases p
  cases q
  simp_all

theorem string_append_left_cancel (pre p q : String) (h : pre ++ p = pre ++ q) :
    p = q := by
  have hd : (pre ++ p).data = (pre ++ q).data := congrArg String.data h
  rw [String.data_append, String.data_append] at hd
  have := List.append_cancel_left hd
  cases p
  cases q
  simp_all

theorem fmtId_inj (before after : String) (x y : ℕ) (hx : x < 41) (hy : y < 41)
    (h : fmtId before x after = fmtId before y after) : x = y := by
  unfold fmtId at h
  have h1 : before ++ pad2 x = before ++ pad2 y := by
    apply string_append_right_cancel _ _ after _ h
    rw [String.length_append, String.length_append, pad2_length_small x hx,
      pad2_length_small y hy]
  have h2 : pad2 x = pad2 y := string_append_left_cancel before _ _ h1
  exact pad2_inj_small x hx y hy h2

theorem west_ids_bound : ∀ x ∈ west_ids, x < 41 := by decide
theorem south_ids_bound : ∀ x ∈ south_ids, x < 41 := by decide
theorem east_ids_bound : ∀ x ∈ east_ids, x < 41 := by decide

theorem shaft_map_nodup (before after : String) (ids : List ℕ)
    (hb : ∀ x ∈ ids, x < 41) (hn : ids.Nodup) :
    (ids.map fun x => fmtId before x after).Nodup := by
  apply List.Nodup.map_on _ hn
  intro x hx y hy hxy
  exact fmtId_inj before after x y (hb x hx) (hb y hy) hxy

theorem shaft_map_disjoint (before after : String) (ids1 ids2 : List ℕ)
    (hb1 : ∀ x ∈ ids1, x < 41) (hb2 : ∀ x ∈ ids2, x < 41)
    (hd : ∀ x ∈ ids1, ∀ y ∈ ids2, x ≠ y) :
    ∀ a, a ∈ (ids1.map fun x => fmtId before x after) →
      a ∈ (ids2.map fun x => fmtId before x after) → False := by
  intro a ha1 ha2
  rcases List.mem_map.mp ha1 with ⟨x, hx, rfl⟩
  rcases List.mem_map.mp ha2 with ⟨y, hy, hxy⟩
  exact hd x hx y hy (fmtId_inj before after x y (hb1 x hx) (hb2 y hy) hxy.symm)

theorem west_south_ne : ∀ x ∈ west_ids, ∀ y ∈ south_ids, x ≠ y := by decide
theorem west_east_ne : ∀ x ∈ west_ids, ∀ y ∈ east_ids, x ≠ y := by decide
theorem south_east_ne : ∀ x ∈ south_ids, ∀ y ∈ east_ids, x ≠ y := by decide
theorem west_ids_nodup : west_ids.Nodup := by decide
theorem south_ids_nodup : south_ids.Nodup := by decide
theorem east_ids_nodup : east_ids.Nodup := by decide

end Analyse

namespace Analyse

theorem removeMasked_sublist (wse : List String × List String × List String)
    (m : String) :
    (removeMasked wse m).1.Sublist wse.1 ∧ (removeMasked wse m).2.1.Sublist wse.2.1 ∧
    (removeMasked wse m).2.2.Sublist wse.2.2 := by
  unfold removeMasked
  split_ifs <;>
    exact ⟨by first | exact List.erase_sublist _ _ | exact List.Sublist.refl _,
      by first | exact List.erase_sublist _ _ | exact List.Sublist.refl _,
      by first | exact List.erase_sublist _ _ | exact List.Sublist.refl _⟩

theorem removeMasked_mem_of_ne (wse : List String × List String × List String)
    (m x : String) (hne : x ≠ m) :
    (x ∈ wse.1 → x ∈ (removeMasked wse m).1) ∧
    (x ∈ wse.2.1 → x ∈ (removeMasked wse m).2.1) ∧
    (x ∈ wse.2.2 → x ∈ (removeMasked wse m).2.2) := by
  unfold removeMasked
  split_ifs <;>
    exact ⟨fun hx => by first | exact List.mem_erase_of_ne hne |>.mpr hx | exact hx,
      fun hx => by first | exact List.mem_erase_of_ne hne |>.mpr hx | exact hx,
      fun hx => by first | exact List.mem_erase_of_ne hne |>.mpr hx | exact hx⟩

theorem removeMasked_not_mem (wse : List String × List String × List String)
    (m : String) (hn1 : wse.1.Nodup) (hn2 : wse.2.1.Nodup) (hn3 : wse.2.2.Nodup)
    (hd12 : ∀ a, a ∈ wse.1 → a ∈ wse.2.1 → False)
    (hd13 : ∀ a, a ∈ wse.1 → a ∈ wse.2.2 → False)
    (hd23 : ∀ a, a ∈ wse.2.1 → a ∈ wse.2.2 → False) :
    m ∉ (removeMasked wse m).1 ∧ m ∉ (removeMasked wse m).2.1 ∧
      m ∉ (removeMasked wse m).2.2 := by
  unfold removeMasked
  split_ifs with h1 h2 h3
  · exact ⟨hn1.not_mem_erase, fun hm => hd12 m h1 hm, fun hm => hd13 m h1 hm⟩
  · exact ⟨h1, hn2.not_mem_erase, fun hm => hd23 m h2 hm⟩
  · exact ⟨h1, h2, hn3.not_mem_erase⟩
  · exact ⟨h1, h2, h3⟩

end Analyse

namespace Analyse

theorem removeMasked_foldl_spec :
    ∀ (ms : List String) (wse : List String × List String × List String),
      wse.1.Nodup → wse.2.1.Nodup → wse.2.2.Nodup →
      (∀ a, a ∈ wse.1 → a ∈ wse.2.1 → False) →
      (∀ a, a ∈ wse.1 → a ∈ wse.2.2 → False) →
      (∀ a, a ∈ wse.2.1 → a ∈ wse.2.2 → False) →
      ((ms.foldl removeMasked wse).1.Sublist wse.1 ∧
       (ms.foldl removeMasked wse).2.1.Sublist wse.2.1 ∧
       (ms.foldl removeMasked wse).2.2.Sublist wse.2.2) ∧
      ((∀ x ∈ wse.1, x ∉ ms → x ∈ (ms.foldl removeMasked wse).1) ∧
       (∀ x ∈ wse.2.1, x ∉ ms → x ∈ (ms.foldl removeMasked wse).2.1) ∧
       (∀ x ∈ wse.2.2, x ∉ ms → x ∈ (ms.foldl removeMasked wse).2.2)) ∧
      (∀ m ∈ ms, m ∉ (ms.foldl removeMasked wse).1 ∧
        m ∉ (ms.foldl removeMasked wse).2.1 ∧ m ∉ (ms.foldl removeMasked wse).2.2) := by
  intro ms
  induction ms with
  | nil =>
    intro wse _ _ _ _ _ _
    exact ⟨⟨List.Sublist.refl _, List.Sublist.refl _, List.Sublist.refl _⟩,
      ⟨fun x hx _ => hx, fun x hx _ => hx, fun x hx _ => hx⟩,
      fun m hm => absurd hm (List.not_mem_nil m)⟩
  | cons m ms ih =>
    intro wse hn1 hn2 hn3 hd12 hd13 hd23
    rw [List.foldl_cons]
    have hsub := removeMasked_sublist wse m
    have hn1' := hn1.sublist hsub.1
    have hn2' := hn2.sublist hsub.2.1
    have hn3' := hn3.sublist hsub.2.2
    have hd12' : ∀ a, a ∈ (removeMasked wse m).1 → a ∈ (removeMasked wse m).2.1 → False :=
      fun a h1 h2 => hd12 a (hsub.1.subset h1) (hsub.2.1.subset h2)
    have hd13' : ∀ a, a ∈ (removeMasked wse m).1 → a ∈ (removeMasked wse m).2.2 → False :=
      fun a h1 h2 => hd13 a (hsub.1.subset h1) (hsub.2.2.subset h2)
    have hd23' : ∀ a, a ∈ (removeMasked wse m).2.1 → a ∈ (removeMasked wse m).2.2 → False :=
      fun a h1 h2 => hd23 a (hsub.2.1.subset h1) (hsub.2.2.subset h2)
    rcases ih (removeMasked wse m) hn1' hn2' hn3' hd12' hd13' hd23' with
      ⟨⟨s1, s2, s3⟩, ⟨p1, p2, p3⟩, habs⟩
    refine ⟨⟨s1.trans hsub.1, s2.trans hsub.2.1, s3.trans hsub.2.2⟩, ?_, ?_⟩
    · have hmem := removeMasked_mem_of_ne wse m
      refine ⟨?_, ?_, ?_⟩
      · intro x hx hnx
        have hne : x ≠ m := fun hc => hnx (hc ▸ List.mem_cons_self m ms)
        have hnms : x ∉ ms := fun hc => hnx (List.mem_cons_of_mem m hc)
        exact p1 x ((hmem x hne).1 hx) hnms
      · intro x hx hnx
        have hne : x ≠ m := fun hc => hnx (hc ▸ List.mem_cons_self m ms)
        have hnms : x ∉ ms := fun hc => hnx (List.mem_cons_of_mem m hc)
        exact p2 x ((hmem x hne).2.1 hx) hnms
      · intro x hx hnx
        have hne : x ≠ m := fun hc => hnx (hc ▸ List.mem_cons_self m ms)
        have hnms : x ∉ ms := fun hc => hnx (List.mem_cons_of_mem m hc)
        exact p3 x ((hmem x hne).2.2 hx) hnms
    · intro m' hm'
      rcases List.mem_cons.mp hm' with rfl | hm''
      · have hrm := removeMasked_not_mem wse m' hn1 hn2 hn3 hd12 hd13 hd23
        exact ⟨fun hc => hrm.1 (s1.subset hc), fun hc => hrm.2.1 (s2.subset hc),
          fun hc => hrm.2.2 (s3.subset hc)⟩
      · exact habs m' hm''

end Analyse

namespace Analyse

theorem generate_nodup_disjoint (before after : String) :
    (generate_ID_strings_per_shaft before after).1.Nodup ∧
    (generate_ID_strings_per_shaft before after).2.1.Nodup ∧
    (generate_ID_strings_per_shaft before after).2.2.Nodup ∧
    (∀ a, a ∈ (generate_ID_strings_per_shaft before after).1 →
      a ∈ (generate_ID_strings_per_shaft before after).2.1 → False) ∧
    (∀ a, a ∈ (generate_ID_strings_per_shaft before after).1 →
      a ∈ (generate_ID_strings_per_shaft before after).2.2 → False) ∧
    (∀ a, a ∈ (generate_ID_strings_per_shaft before after).2.1 →
      a ∈ (generate_ID_strings_per_shaft before after).2.2 → False) :=
  ⟨shaft_map_nodup before after west_ids west_ids_bound west_ids_nodup,
   shaft_map_nodup before after south_ids south_ids_bound south_ids_nodup,
   shaft_map_nodup before after east_ids east_ids_bound east_ids_nodup,
   shaft_map_disjoint before after west_ids south_ids west_ids_bound south_ids_bound
     west_south_ne,
   shaft_map_disjoint before after west_ids east_ids west_ids_bound east_ids_bound
     west_east_ne,
   shaft_map_disjoint before after south_ids east_ids south_ids_bound east_ids_bound
     south_east_ne⟩

theorem get_ID_strings_spec (after : String) (ms : List String) :
    ((get_ID_strings after (some ms)).1.Sublist
       (generate_ID_strings_per_shaft "Probe_" after).1 ∧
     (get_ID_strings after (some ms)).2.1.Sublist
       (generate_ID_strings_per_shaft "Probe_" after).2.1 ∧
     (get_ID_strings after (some ms)).2.2.Sublist
       (generate_ID_strings_per_shaft "Probe_" after).2.2) ∧
    ((∀ x ∈ (generate_ID_strings_per_shaft "Probe_" after).1,
        x ∉ ms → x ∈ (get_ID_strings after (some ms)).1) ∧
     (∀ x ∈ (generate_ID_strings_per_shaft "Probe_" after).2.1,
        x ∉ ms → x ∈ (get_ID_strings after (some ms)).2.1) ∧
     (∀ x ∈ (generate_ID_strings_per_shaft "Probe_" after).2.2,
        x ∉ ms → x ∈ (get_ID_strings after (some ms)).2.2)) ∧
    (∀ m ∈ ms, m ∉ (get_ID_strings after (some ms)).1 ∧
      m ∉ (get_ID_strings after (some ms)).2.1 ∧
      m ∉ (get_ID_strings after (some ms)).2.2) := by
  rcases generate_nodup_disjoint "Probe_" after with ⟨n1, n2, n3, d12, d13, d23⟩
  exact removeMasked_foldl_spec ms (generate_ID_strings_per_shaft "Probe_" after)
    n1 n2 n3 d12 d13 d23

/-- The three lists returned by `get_ID_strings` are Nodup and pairwise
disjoint, for any exclusion argument. -/
theorem get_ID_strings_nodup_disjoint (after : String)
    (masked : Option (List String)) :
    (get_ID_strings after masked).1.Nodup ∧
    (get_ID_strings after masked).2.1.Nodup ∧
    (get_ID_strings after masked).2.2.Nodup ∧
    (∀ a, a ∈ (get_ID_strings after masked).1 →
      a ∈ (get_ID_strings after masked).2.1 → False) ∧
    (∀ a, a ∈ (get_ID_strings after masked).1 →
      a ∈ (get_ID_strings after masked).2.2 → False) ∧
    (∀ a, a ∈ (get_ID_strings after masked).2.1 →
      a ∈ (get_ID_strings after masked).2.2 → False) := by
  rcases generate_nodup_disjoint "Probe_" after with ⟨n1, n2, n3, d12, d13, d23⟩
  cases masked with
  | none => exact ⟨n1, n2, n3, d12, d13, d23⟩
  | some ms =>
    rcases (get_ID_strings_spec after ms).1 with ⟨s1, s2, s3⟩
    exact ⟨n1.sublist s1, n2.sublist s2, n3.sublist s3,
      fun a h1 h2 => d12 a (s1.subset h1) (s2.subset h2),
      fun a h1 h2 => d13 a (s1.subset h1) (s3.subset h2),
      fun a h1 h2 => d23 a (s2.subset h1) (s3.subset h2)⟩

end Analyse

/-- C8: `get_ID_strings` removes every listed identifier from whichever of
the three group lists contains it (so it ends in none of them), is a silent
no-op for identifiers in no group, and removal never inserts identifiers into
or removes other members from any group (each returned list is a sublist of
the original containing exactly the non-masked members). -/
theorem C8_exclusion_removal (after : String) (ms : List String) :
    (∀ m ∈ ms, m ∉ (Analyse.get_ID_strings after (some ms)).1 ∧
      m ∉ (Analyse.get_ID_strings after (some ms)).2.1 ∧
      m ∉ (Analyse.get_ID_strings after (some ms)).2.2) ∧
    ((Analyse.get_ID_strings after (some ms)).1.Sublist
       (Analyse.generate_ID_strings_per_shaft "Probe_" after).1 ∧
     (Analyse.get_ID_strings after (some ms)).2.1.Sublist
       (Analyse.generate_ID_strings_per_shaft "Probe_" after).2.1 ∧
     (Analyse.get_ID_strings after (some ms)).2.2.Sublist
       (Analyse.generate_ID_strings_per_shaft "Probe_" after).2.2) ∧
    ((∀ x ∈ (Analyse.generate_ID_strings_per_shaft "Probe_" after).1,
        x ∉ ms → x ∈ (Analyse.get_ID_strings after (some ms)).1) ∧
     (∀ x ∈ (Analyse.generate_ID_strings_per_shaft "Probe_" after).2.1,
        x ∉ ms → x ∈ (Analyse.get_ID_strings after (some ms)).2.1) ∧
     (∀ x ∈ (Analyse.generate_ID_strings_per_shaft "Probe_" after).2.2,
        x ∉ ms → x ∈ (Analyse.get_ID_strings after (some ms)).2.2)) := by
  rcases Analyse.get_ID_strings_spec after ms with ⟨hsub, hpres, habs⟩
  exact ⟨habs, hsub, hpres⟩

/-- C8 witness: masking `Probe_03_T_in` (a west member) and a string in no
group: the former leaves all lists except west untouched and disappears from
west; the latter is a no-op; `Probe_04_T_in` survives. -/
theorem C8_exclusion_removal_witness :
    ("Probe_03_T_in" ∉
      (Analyse.get_ID_strings "_T_in" (some ["Probe_03_T_in", "nope"])).1 ∧
     "Probe_03_T_in" ∉
      (Analyse.get_ID_strings "_T_in" (some ["Probe_03_T_in", "nope"])).2.1 ∧
     "Probe_03_T_in" ∉
      (Analyse.get_ID_strings "_T_in" (some ["Probe_03_T_in", "nope"])).2.2) ∧
    "Probe_04_T_in" ∈
      (Analyse.get_ID_strings "_T_in" (some ["Probe_03_T_in", "nope"])).1 := by
  refine ⟨(C8_exclusion_removal "_T_in" ["Probe_03_T_in", "nope"]).1
    "Probe_03_T_in" (by decide), ?_⟩
  exact (C8_exclusion_removal "_T_in" ["Probe_03_T_in", "nope"]).2.2.1
    "Probe_04_T_in" (by decide) (by decide)

namespace Analyse

theorem validIdx_eq (df : DFrame) (f : String) (med : List (Option ℚ)) :
    validIdx df f med = (List.range df.nrows).filter
      (fun t => ((df.col f t).isSome && (med.getD t none).isSome)) := by
  unfold validIdx
  apply List.filter_congr
  intro t _
  unfold pairMask
  cases df.col f t <;> cases med.getD t none <;> rfl

theorem member_misfit_zero_rows (df : DFrame) (f : String) (med : List (Option ℚ))
    (h : df.nrows = 0) : member_misfit df f med = .error "ValueError" := by
  unfold member_misfit
  rw [if_neg (by rw [h]; rintro ⟨hc, -⟩; omega)]
  have hv : validIdx df f med = [] := by
    unfold validIdx
    rw [h]
    rfl
  rw [hv]
  rfl

theorem member_misfit_eq_spec (df : DFrame) (f : String) (med : List (Option ℚ))
    (h : 0 < df.nrows) : member_misfit df f med = .ok (specMisfit df f med) := by
  unfold member_misfit specMisfit
  rw [← validIdx_eq]
  by_cases hall : ∀ t, t < df.nrows → pairMask df f med t = true
  · rw [if_pos ⟨h, hall⟩]
    have hv : validIdx df f med = [] := by
      unfold validIdx
      apply List.filter_eq_nil_iff.mpr
      intro t ht
      rw [List.mem_range] at ht
      rw [hall t ht]
      simp
    rw [hv]
    rfl
  · rw [if_neg (by rintro ⟨-, hc⟩; exact hall hc)]
    push_neg at hall
    rcases hall with ⟨t, ht, hmask⟩
    have htmem : t ∈ validIdx df f med := by
      unfold validIdx
      rw [List.mem_filter, List.mem_range]
      refine ⟨ht, ?_⟩
      revert hmask
      cases pairMask df f med t <;> simp
    have hne : (validIdx df f med).isEmpty = false := by
      cases hvl : validIdx df f med with
      | nil => rw [hvl] at htmem; exact absurd htmem (List.not_mem_nil t)
      | cons a l => rfl
    simp only [hne]
    rfl

theorem specMisfit_zero (df : DFrame) (f : String) (med : List (Option ℚ))
    (heq : ∀ t, t < df.nrows → df.col f t = med.getD t none)
    (hex : ∃ t, t < df.nrows ∧ (df.col f t).isSome = true) :
    specMisfit df f med = some 0 := by
  unfold specMisfit
  rcases hex with ⟨t0, ht0, hs0⟩
  have ht0mem : t0 ∈ (List.range df.nrows).filter
      (fun t => ((df.col f t).isSome && (med.getD t none).isSome)) := by
    rw [List.mem_filter, List.mem_range]
    refine ⟨ht0, ?_⟩
    rw [← heq t0 ht0, hs0]
    rfl
  have hne : ((List.range df.nrows).filter
      (fun t => ((df.col f t).isSome && (med.getD t none).isSome))).isEmpty = false := by
    cases hvl : (List.range df.nrows).filter
        (fun t => ((df.col f t).isSome && (med.getD t none).isSome)) with
    | nil => rw [hvl] at ht0mem; exact absurd ht0mem (List.not_mem_nil t0)
    | cons a l => rfl
  simp only [hne, Bool.false_eq_true, if_false]
  congr 1
  have hzero : ∀ x ∈ (((List.range df.nrows).filter
      (fun t => ((df.col f t).isSome && (med.getD t none).isSome))).map
        fun t => |((med.getD t none).getD 0) - ((df.col f t).getD 0)|), x = 0 := by
    intro x hx
    rcases List.mem_map.mp hx with ⟨t, htmem, rfl⟩
    rw [List.mem_filter, List.mem_range] at htmem
    rw [heq t htmem.1, sub_self, abs_zero]
  rw [List.sum_eq_zero hzero, zero_div]

theorem mem_dictUpdate_key (d : List (String × ℚ)) (k : String) (v : ℚ) (f : String) :
    (∃ w, (f, w) ∈ dictUpdate d k v) ↔ (∃ w, (f, w) ∈ d) ∨ f = k := by
  unfold dictUpdate
  by_cases hany : d.any (fun p => p.1 = k)
  · rw [if_pos hany]
    constructor
    · rintro ⟨w, hw⟩
      rcases List.mem_map.mp hw with ⟨⟨pk, pv⟩, hp, hpe⟩
      by_cases hpk : pk = k
      · right
        rw [if_pos (by simpa using hpk)] at hpe
        injection hpe with h1 h2
        exact h1.symm
      · left
        rw [if_neg (by simpa using hpk)] at hpe
        exact ⟨w, hpe ▸ hp⟩
    · intro h
      rcases List.any_eq_true.mp hany with ⟨p, hp, hpk⟩
      have hpk' : p.1 = k := of_decide_eq_true hpk
      rcases h with ⟨w, hw⟩ | hfk
      · by_cases hfk2 : f = k
        · refine ⟨v, List.mem_map.mpr ⟨p, hp, ?_⟩⟩
          rw [if_pos hpk', hfk2]
        · refine ⟨w, List.mem_map.mpr ⟨(f, w), hw, ?_⟩⟩
          rw [if_neg (by simpa using hfk2)]
      · refine ⟨v, List.mem_map.mpr ⟨p, hp, ?_⟩⟩
        rw [if_pos hpk', hfk]
  · rw [if_neg hany]
    constructor
    · rintro ⟨w, hw⟩
      rcases List.mem_append.mp hw with hw' | hw'
      · exact Or.inl ⟨w, hw'⟩
      · right
        exact congrArg Prod.fst (List.mem_singleton.mp hw')
    · rintro (⟨w, hw⟩ | rfl)
      · exact ⟨w, List.mem_append.mpr (Or.inl hw)⟩
      · exact ⟨v, List.mem_append.mpr (Or.inr (List.mem_singleton.mpr rfl))⟩

end Analyse

namespace Analyse

theorem flag_group_ok_member (df : DFrame) (med : List (Option ℚ)) (thr : ℚ) :
    ∀ (cols : List String) (acc d : List (String × ℚ)),
      flag_group df med thr cols acc = .ok d →
      ∀ f ∈ cols, ∃ mm, member_misfit df f med = .ok mm := by
  intro cols
  induction cols with
  | nil =>
    intro acc d _ f hf
    exact absurd hf (List.not_mem_nil f)
  | cons c cols ih =>
    intro acc d hok f hf
    unfold flag_group at hok
    rw [List.foldlM_cons] at hok
    cases hmm : member_misfit df c med with
    | error e =>
      rw [hmm, Load2.except_bind_error, Load2.except_bind_error] at hok
      exact Except.noConfusion hok
    | ok mm =>
      rw [hmm, Load2.except_bind_ok] at hok
      rcases List.mem_cons.mp hf with rfl | hf'
      · exact ⟨mm, hmm⟩
      · cases mm with
        | none =>
          rw [Load2.except_pure_bind] at hok
          exact ih acc d hok f hf'
        | some v =>
          rw [Load2.except_pure_bind] at hok
          by_cases hv : thr < |v|
          · rw [if_pos hv] at hok
            exact ih _ d hok f hf'
          · rw [if_neg hv] at hok
            exact ih acc d hok f hf'

theorem flag_group_keys (df : DFrame) (med : List (Option ℚ)) (thr : ℚ) :
    ∀ (cols : List String) (acc d : List (String × ℚ)),
      flag_group df med thr cols acc = .ok d →
      ∀ f, ((∃ w, (f, w) ∈ d) ↔ ((∃ w, (f, w) ∈ acc) ∨
        (f ∈ cols ∧ ∃ v, member_misfit df f med = .ok (some v) ∧ thr < |v|))) := by
  intro cols
  induction cols with
  | nil =>
    intro acc d hok f
    unfold flag_group at hok
    rw [List.foldlM_nil] at hok
    injection hok with hok'
    subst hok'
    constructor
    · exact fun h => Or.inl h
    · rintro (h | ⟨hf, -⟩)
      · exact h
      · exact absurd hf (List.not_mem_nil f)
  | cons c cols ih =>
    intro acc d hok f
    unfold flag_group at hok
    rw [List.foldlM_cons] at hok
    cases hmm : member_misfit df c med with
    | error e =>
      rw [hmm, Load2.except_bind_error, Load2.except_bind_error] at hok
      exact Except.noConfusion hok
    | ok mm =>
      rw [hmm, Load2.except_bind_ok] at hok
      have hcons : ∀ (P : Prop), (f ∈ c :: cols ∧ P) ↔ ((f = c ∧ P) ∨ (f ∈ cols ∧ P)) := by
        intro P
        rw [List.mem_cons]
        tauto
      cases mm with
      | none =>
        rw [Load2.except_pure_bind] at hok
        rw [ih acc d hok f, hcons]
        have hnc : ¬(f = c ∧ ∃ v, member_misfit df f med = .ok (some v) ∧ thr < |v|) := by
          rintro ⟨rfl, v, hv, -⟩
          rw [hmm] at hv
          injection hv with hv'
          exact Option.noConfusion hv'
        constructor
        · rintro (h | h)
          · exact Or.inl h
          · exact Or.inr (Or.inr h)
        · rintro (h | (h | h))
          · exact Or.inl h
          · exact absurd h hnc
          · exact Or.inr h
      | some v =>
        rw [Load2.except_pure_bind] at hok
        by_cases hv : thr < |v|
        · rw [if_pos hv] at hok
          rw [ih _ d hok f, mem_dictUpdate_key, hcons]
          have hcc : (f = c) ↔ (f = c ∧ ∃ w, member_misfit df f med = .ok (some w) ∧ thr < |w|) := by
            constructor
            · rintro rfl
              exact ⟨rfl, v, hmm, hv⟩
            · rintro ⟨h, -⟩
              exact h
          constructor
          · rintro ((h | h) | h)
            · exact Or.inl h
            · exact Or.inr (Or.inl (hcc.mp h))
            · exact Or.inr (Or.inr h)
          · rintro (h | (h | h))
            · exact Or.inl (Or.inl h)
            · exact Or.inl (Or.inr h.1)
            · exact Or.inr h
        · rw [if_neg hv] at hok
          rw [ih acc d hok f, hcons]
          have hnc : ¬(f = c ∧ ∃ w, member_misfit df f med = .ok (some w) ∧ thr < |w|) := by
            rintro ⟨rfl, w, hw, hthr⟩
            rw [hmm] at hw
            injection hw with hw'
            injection hw' with hw''
            exact hv (hw'' ▸ hthr)
          constructor
          · rintro (h | h)
            · exact Or.inl h
            · exact Or.inr (Or.inr h)
          · rintro (h | (h | h))
            · exact Or.inl h
            · exact absurd h hnc
            · exact Or.inr h

end Analyse

namespace Analyse

theorem get_vault_ok_parts (df : DFrame) (after : String) (thr : ℚ) (rm : Bool)
    (masked : Option (List String)) (d : List (String × ℚ))
    (meds : Option (List (Option ℚ) × List (Option ℚ) × List (Option ℚ)))
    (h : get_vault_outliers_median_filter df after thr rm masked = .ok (d, meds)) :
    ∃ d1 d2,
      flag_group df (nanmedianSeries df (get_ID_strings after masked).1) thr
        (get_ID_strings after masked).1 [] = .ok d1 ∧
      flag_group df (nanmedianSeries df (get_ID_strings after masked).2.2) thr
        (get_ID_strings after masked).2.2 d1 = .ok d2 ∧
      flag_group df (nanmedianSeries df (get_ID_strings after masked).2.1) thr
        (get_ID_strings after masked).2.1 d2 = .ok d := by
  unfold get_vault_outliers_median_filter at h
  cases hw : flag_group df (nanmedianSeries df (get_ID_strings after masked).1) thr
      (get_ID_strings after masked).1 [] with
  | error e =>
    simp only [hw, Load2.except_bind_error] at h
    exact Except.noConfusion h
  | ok d1 =>
    simp only [hw, Load2.except_bind_ok] at h
    cases he : flag_group df (nanmedianSeries df (get_ID_strings after masked).2.2) thr
        (get_ID_strings after masked).2.2 d1 with
    | error e =>
      simp only [he, Load2.except_bind_error] at h
      exact Except.noConfusion h
    | ok d2 =>
      simp only [he, Load2.except_bind_ok] at h
      cases hs : flag_group df (nanmedianSeries df (get_ID_strings after masked).2.1) thr
          (get_ID_strings after masked).2.1 d2 with
      | error e =>
        simp only [hs, Load2.except_bind_error] at h
        exact Except.noConfusion h
      | ok d3 =>
        simp only [hs, Load2.except_bind_ok] at h
        have hd : d3 = d := congrArg Prod.fst (Except.ok.inj h)
        subst hd
        exact ⟨d1, d2, rfl, he, hs⟩

theorem C5core (df : DFrame) (thr : ℚ) (med : List (Option ℚ)) (f : String)
    (d : List (String × ℚ))
    (hiff : (∃ w, (f, w) ∈ d) ↔ ∃ v, member_misfit df f med = .ok (some v) ∧ thr < |v|)
    (hok : ∃ mm, member_misfit df f med = .ok mm) :
    ((∃ v, (f, v) ∈ d) ↔ (∃ v, specMisfit df f med = some v ∧ thr < |v|)) ∧
    (specMisfit df f med = none → ¬(∃ v, (f, v) ∈ d)) ∧
    ((∀ t, t < df.nrows → df.col f t = med.getD t none) → 0 < thr →
      ¬(∃ v, (f, v) ∈ d)) ∧
    ((∀ t, t < df.nrows → df.col f t = med.getD t none) →
      (∃ t, t < df.nrows ∧ (df.col f t).isSome = true) →
      specMisfit df f med = some 0) := by
  have hpos : 0 < df.nrows := by
    rcases hok with ⟨mm, hmm⟩
    by_contra hc
    push_neg at hc
    rw [member_misfit_zero_rows df f med (by omega)] at hmm
    exact Except.noConfusion hmm
  have hspec := member_misfit_eq_spec df f med hpos
  have hiff2 : (∃ v, (f, v) ∈ d) ↔
      ∃ v, specMisfit df f med = some v ∧ thr < |v| := by
    rw [hiff]
    constructor
    · rintro ⟨v, hv, ht⟩
      rw [hspec] at hv
      injection hv with hv'
      exact ⟨v, hv', ht⟩
    · rintro ⟨v, hv, ht⟩
      exact ⟨v, by rw [hspec, hv], ht⟩
  refine ⟨hiff2, ?_, ?_, specMisfit_zero df f med⟩
  · intro hnone hflag
    rcases hiff2.mp hflag with ⟨v, hv, -⟩
    rw [hnone] at hv
    exact Option.noConfusion hv
  · intro heq hthr hflag
    rcases hiff2.mp hflag with ⟨v, hv, ht⟩
    have hex : ∃ t, t < df.nrows ∧ (df.col f t).isSome = true := by
      by_contra hc
      push_neg at hc
      have hnone : specMisfit df f med = none := by
        unfold specMisfit
        have hfil : (List.range df.nrows).filter
            (fun t => ((df.col f t).isSome && (med.getD t none).isSome)) = [] := by
          apply List.filter_eq_nil_iff.mpr
          intro t ht'
          rw [List.mem_range] at ht'
          intro hcontra
          rw [Bool.and_eq_true] at hcontra
          exact hc t ht' hcontra.1
        simp only [hfil]
        rfl
      rw [hnone] at hv
      exact Option.noConfusion hv
    have h0 := specMisfit_zero df f med heq hex
    rw [h0] at hv
    injection hv with hv'
    rw [← hv', abs_zero] at ht
    exact absurd ht (not_lt.mpr (le_of_lt hthr))

end Analyse

/-- C5: a group member appears in the returned misfit mapping iff its misfit
(the mean absolute difference to its group's nanmedian over exactly the
pairwise-valid timestamps) is defined and strictly exceeds the threshold; a
member with no pairwise-valid timestamp is never flagged, and a member equal
to the median at every timestamp has misfit 0 and is never flagged for a
positive threshold. -/
theorem C5_outlier_flagging (df : Analyse.DFrame) (after : String) (thr : ℚ)
    (masked : Option (List String)) (d : List (String × ℚ))
    (meds : Option (List (Option ℚ) × List (Option ℚ) × List (Option ℚ)))
    (h : Analyse.get_vault_outliers_median_filter df after thr true masked
      = .ok (d, meds))
    (f : String) (cols : List String) (med : List (Option ℚ))
    (hgroup :
      (cols = (Analyse.get_ID_strings after masked).1 ∧
        med = Analyse.nanmedianSeries df (Analyse.get_ID_strings after masked).1) ∨
      (cols = (Analyse.get_ID_strings after masked).2.1 ∧
        med = Analyse.nanmedianSeries df (Analyse.get_ID_strings after masked).2.1) ∨
      (cols = (Analyse.get_ID_strings after masked).2.2 ∧
        med = Analyse.nanmedianSeries df (Analyse.get_ID_strings after masked).2.2))
    (hf : f ∈ cols) :
    ((∃ v, (f, v) ∈ d) ↔ (∃ v, Analyse.specMisfit df f med = some v ∧ thr < |v|)) ∧
    (Analyse.specMisfit df f med = none → ¬(∃ v, (f, v) ∈ d)) ∧
    ((∀ t, t < df.nrows → df.col f t = med.getD t none) → 0 < thr →
      ¬(∃ v, (f, v) ∈ d)) ∧
    ((∀ t, t < df.nrows → df.col f t = med.getD t none) →
      (∃ t, t < df.nrows ∧ (df.col f t).isSome = true) →
      Analyse.specMisfit df f med = some 0) := by
  rcases Analyse.get_vault_ok_parts df after thr true masked d meds h with
    ⟨d1, d2, hw, he, hs⟩
  rcases Analyse.get_ID_strings_nodup_disjoint after masked with ⟨-, -, -, d12, d13, d23⟩
  have Kd := Analyse.flag_group_keys df
    (Analyse.nanmedianSeries df (Analyse.get_ID_strings after masked).2.1) thr
    (Analyse.get_ID_strings after masked).2.1 d2 d hs f
  have Kd2 := Analyse.flag_group_keys df
    (Analyse.nanmedianSeries df (Analyse.get_ID_strings after masked).2.2) thr
    (Analyse.get_ID_strings after masked).2.2 d1 d2 he f
  have Kd1 := Analyse.flag_group_keys df
    (Analyse.nanmedianSeries df (Analyse.get_ID_strings after masked).1) thr
    (Analyse.get_ID_strings after masked).1 [] d1 hw f
  have hemp : ¬∃ w, (f, w) ∈ ([] : List (String × ℚ)) := by
    rintro ⟨w, hw'⟩
    exact List.not_mem_nil _ hw'
  rcases hgroup with ⟨rfl, rfl⟩ | ⟨rfl, rfl⟩ | ⟨rfl, rfl⟩
  · have hf21 : f ∉ (Analyse.get_ID_strings after masked).2.1 := fun hc => d12 f hf hc
    have hf22 : f ∉ (Analyse.get_ID_strings after masked).2.2 := fun hc => d13 f hf hc
    have hiff : (∃ w, (f, w) ∈ d) ↔ ∃ v, Analyse.member_misfit df f
        (Analyse.nanmedianSeries df (Analyse.get_ID_strings after masked).1)
        = .ok (some v) ∧ thr < |v| := by
      rw [Kd, Kd2, Kd1]
      constructor
      · rintro (((h' | ⟨-, hcw⟩) | ⟨hfe, -⟩) | ⟨hfs, -⟩)
        · exact absurd h' hemp
        · exact hcw
        · exact absurd hfe hf22
        · exact absurd hfs hf21
      · intro hcw
        exact Or.inl (Or.inl (Or.inr ⟨hf, hcw⟩))
    have hok := Analyse.flag_group_ok_member df
      (Analyse.nanmedianSeries df (Analyse.get_ID_strings after masked).1) thr
      (Analyse.get_ID_strings after masked).1 [] d1 hw f hf
    exact Analyse.C5core df thr _ f d hiff hok
  · have hf1 : f ∉ (Analyse.get_ID_strings after masked).1 := fun hc => d12 f hc hf
    have hf22 : f ∉ (Analyse.get_ID_strings after masked).2.2 := fun hc => d23 f hf hc
    have hiff : (∃ w, (f, w) ∈ d) ↔ ∃ v, Analyse.member_misfit df f
        (Analyse.nanmedianSeries df (Analyse.get_ID_strings after masked).2.1)
        = .ok (some v) ∧ thr < |v| := by
      rw [Kd, Kd2, Kd1]
      constructor
      · rintro (((h' | ⟨hfw, -⟩) | ⟨hfe, -⟩) | ⟨-, hcs⟩)
        · exact absurd h' hemp
        · exact absurd hfw hf1
        · exact absurd hfe hf22
        · exact hcs
      · intro hcs
        exact Or.inr ⟨hf, hcs⟩
    have hok := Analyse.flag_group_ok_member df
      (Analyse.nanmedianSeries df (Analyse.get_ID_strings after masked).2.1) thr
      (Analyse.get_ID_strings after masked).2.1 d2 d hs f hf
    exact Analyse.C5core df thr _ f d hiff hok
  · have hf1 : f ∉ (Analyse.get_ID_strings after masked).1 := fun hc => d13 f hc hf
    have hf21 : f ∉ (Analyse.get_ID_strings after masked).2.1 := fun hc => d23 f hc hf
    have hiff : (∃ w, (f, w) ∈ d) ↔ ∃ v, Analyse.member_misfit df f
        (Analyse.nanmedianSeries df (Analyse.get_ID_strings after masked).2.2)
        = .ok (some v) ∧ thr < |v| := by
      rw [Kd, Kd2, Kd1]
      constructor
      · rintro (((h' | ⟨hfw, -⟩) | ⟨-, hce⟩) | ⟨hfs, -⟩)
        · exact absurd h' hemp
        · exact absurd hfw hf1
        · exact hce
        · exact absurd hfs hf21
      · intro hce
        exact Or.inl (Or.inr ⟨hf, hce⟩)
    have hok := Analyse.flag_group_ok_member df
      (Analyse.nanmedianSeries df (Analyse.get_ID_strings after masked).2.2) thr
      (Analyse.get_ID_strings after masked).2.2 d1 d2 he f hf
    exact Analyse.C5core df thr _ f d hiff hok

theorem exceptToOption_ok {α : Type} (e : Except String α) (x : α)
    (h : e.toOption = some x) : e = .ok x := by
  cases e with
  | ok a =>
    injection h with h'
    rw [h']
  | error s => exact Option.noConfusion h

set_option maxRecDepth 10000 in
unseal Rat.ofScientific Rat.mul Rat.inv Rat.add Rat.sub in
/-- C5 witness: in a one-row table where device 01 reads 20 against a west
median of 10, device 01 is flagged with misfit 10. -/
theorem C5_outlier_flagging_witness :
    ∃ v, ("Probe_01_T_in", v) ∈ [("Probe_01_T_in", (10 : ℚ))] :=
  (C5_outlier_flagging dfC5 "_T_in" 0.15 none [("Probe_01_T_in", 10)]
      (some ([some 10], [some 10], [some 10]))
      (exceptToOption_ok _ _ (by decide))
      "Probe_01_T_in" (Analyse.get_ID_strings "_T_in" none).1
      (Analyse.nanmedianSeries dfC5 (Analyse.get_ID_strings "_T_in" none).1)
      (Or.inl ⟨rfl, rfl⟩) (by decide)).1.mpr
    ⟨10, by decide, by decide⟩

set_option maxRecDepth 10000 in
unseal Rat.ofScientific Rat.mul Rat.inv Rat.add Rat.sub in
/-- C6: excluding all twelve west members empties the west group, yet
`get_vault_outliers_median_filter` still computes `np.nanmedian` over the
empty set and returns normally — the result looks valid, with an all-NaN
(`none`) west median series and no outlier flags, instead of skipping the
group or failing explicitly. -/
theorem C6_empty_group_nan_median :
    (Analyse.get_vault_outliers_median_filter dfC6 "_T_in" 0.15 true
        (some (Analyse.west_ids.map fun x => Analyse.fmtId "Probe_" x "_T_in"))).toOption
      = some ([], some ([none], [some 10], [some 10])) := by decide
